import Mathlib

/-!
Verification of the Seamline web app's saved-places-and-collections data layer.

The layer exists twice in the repository: a local-storage-only module
(`src/utils/storage.js`, embedded below as namespace `Storage`) and a
remote-auth-backed module (`src/unnamed/part_001`, embedded as namespace
`RemoteStorage`; that file uses the remote service for authentication only).
Both read and write the JSON object persisted in `localStorage` under the key
`"seamline_saved_places"`.

The persisted store is modelled at the level of its parsed JSON value, an
arbitrary `JsVal` (ordinarily a JS object mapping user emails to entries,
whose field list is insertion-ordered with unique keys, but `localStorage`
can hold any JSON text).  Property reads and writes follow JS semantics,
including the TypeError thrown by property access on `null`/`undefined`, the
strict-mode TypeError thrown by property writes on primitives, and
`JSON.stringify` dropping string-keyed expando properties of arrays, so
fallible code returns `Except`.  Window events (`seamline:saved-change`
etc.) are pure notifications and are not modelled.  Also embedded: the
`escapeHtml` sanitisation utility from the repository's sanitisation
module.
-/

/-- A JavaScript value as it can appear after `JSON.parse` (plus `undefined`,
which arises from missing-property access).  JSON numbers are modelled as
integers; the saved-data layer performs no arithmetic on them, only equality
tests, truthiness tests and string coercion. -/
inductive JsVal where
  | vnull : JsVal
  | vundefined : JsVal
  | vbool : Bool → JsVal
  | vnum : Int → JsVal
  | vstr : String → JsVal
  | varr : List JsVal → JsVal
  | vobj : List (String × JsVal) → JsVal
  deriving Repr

open JsVal

mutual
/-- Structural boolean equality on `JsVal` (used to build decidable equality;
`deriving DecidableEq` does not handle this nested inductive). -/
def JsVal.beq : JsVal → JsVal → Bool
  | .vnull, .vnull => true
  | .vundefined, .vundefined => true
  | .vbool a, .vbool b => a == b
  | .vnum a, .vnum b => a == b
  | .vstr a, .vstr b => a == b
  | .varr xs, .varr ys => JsVal.beqList xs ys
  | .vobj xs, .vobj ys => JsVal.beqObj xs ys
  | _, _ => false

/-- Pointwise `JsVal.beq` on lists. -/
def JsVal.beqList : List JsVal → List JsVal → Bool
  | [], [] => true
  | x :: xs, y :: ys => JsVal.beq x y && JsVal.beqList xs ys
  | _, _ => false

/-- Pointwise `JsVal.beq` on key-value lists. -/
def JsVal.beqObj : List (String × JsVal) → List (String × JsVal) → Bool
  | [], [] => true
  | (k, x) :: xs, (l, y) :: ys => k == l && JsVal.beq x y && JsVal.beqObj xs ys
  | _, _ => false
end

/-- Soundness of `JsVal.beq` (a `def` of propositional type so that decidable
equality can be constructed before the theorem section of this file). -/
def JsVal.eq_of_beq : ∀ a b : JsVal, JsVal.beq a b = true → a = b := by
  refine JsVal.beq.induct (fun a b => JsVal.beq a b = true → a = b)
    (fun xs ys => JsVal.beqObj xs ys = true → xs = ys)
    (fun xs ys => JsVal.beqList xs ys = true → xs = ys)
    ?_ ?_ ?_ ?_ ?_ ?_ ?_ ?_ ?_ ?_ ?_ ?_ ?_ ?_
  · exact fun _ => rfl
  · exact fun _ => rfl
  · intro a b h; simp [JsVal.beq] at h; rw [h]
  · intro a b h; simp [JsVal.beq] at h; rw [h]
  · intro a b h; simp [JsVal.beq] at h; rw [h]
  · intro a b ih h; simp only [JsVal.beq] at h; rw [ih h]
  · intro a b ih h; simp only [JsVal.beq] at h; rw [ih h]
  · intro t x h1 h2 h3 h4 h5 h6 h7 hbeq
    cases t <;> cases x <;> simp [JsVal.beq] at hbeq <;>
      first
      | exact (h1 rfl rfl).elim
      | exact (h2 rfl rfl).elim
      | exact (h3 _ _ rfl rfl).elim
      | exact (h4 _ _ rfl rfl).elim
      | exact (h5 _ _ rfl rfl).elim
      | exact (h6 _ _ rfl rfl).elim
      | exact (h7 _ _ rfl rfl).elim
  · exact fun _ => rfl
  · intro x xs y ys ihv ihl h
    simp only [JsVal.beqList, Bool.and_eq_true] at h
    rw [ihv h.1, ihl h.2]
  · intro t x h1 h2 h
    cases t with
    | nil =>
      cases x with
      | nil => exact (h1 rfl rfl).elim
      | cons b bs => exact absurd h (by simp [JsVal.beqList])
    | cons a as =>
      cases x with
      | nil => exact absurd h (by simp [JsVal.beqList])
      | cons b bs => exact (h2 a as b bs rfl rfl).elim
  · exact fun _ => rfl
  · intro k x xs l y ys ihv ihl h
    simp only [JsVal.beqObj, Bool.and_eq_true, beq_iff_eq] at h
    rw [h.1.1, ihv h.1.2, ihl h.2]
  · intro t x h1 h2 h
    cases t with
    | nil =>
      cases x with
      | nil => exact (h1 rfl rfl).elim
      | cons b bs => exact absurd h (by simp [JsVal.beqObj])
    | cons a as =>
      cases x with
      | nil => exact absurd h (by simp [JsVal.beqObj])
      | cons b bs => exact (h2 a.1 a.2 as b.1 b.2 bs rfl rfl).elim

/-- Completeness of `JsVal.beq`. -/
def JsVal.beq_of_eq : ∀ a b : JsVal, a = b → JsVal.beq a b = true := by
  refine JsVal.beq.induct (fun a b => a = b → JsVal.beq a b = true)
    (fun xs ys => xs = ys → JsVal.beqObj xs ys = true)
    (fun xs ys => xs = ys → JsVal.beqList xs ys = true)
    ?_ ?_ ?_ ?_ ?_ ?_ ?_ ?_ ?_ ?_ ?_ ?_ ?_ ?_
  · exact fun _ => rfl
  · exact fun _ => rfl
  · intro a b h; cases h; simp [JsVal.beq]
  · intro a b h; cases h; simp [JsVal.beq]
  · intro a b h; cases h; simp [JsVal.beq]
  · intro a b ih h; cases h; simp only [JsVal.beq]; exact ih rfl
  · intro a b ih h; cases h; simp only [JsVal.beq]; exact ih rfl
  · intro t x h1 h2 h3 h4 h5 h6 h7 heq
    cases heq
    cases t with
    | vnull => exact (h1 rfl rfl).elim
    | vundefined => exact (h2 rfl rfl).elim
    | vbool a => exact (h3 a a rfl rfl).elim
    | vnum a => exact (h4 a a rfl rfl).elim
    | vstr a => exact (h5 a a rfl rfl).elim
    | varr a => exact (h6 a a rfl rfl).elim
    | vobj a => exact (h7 a a rfl rfl).elim
  · exact fun _ => rfl
  · intro x xs y ys ihv ihl h
    cases h
    simp only [JsVal.beqList, Bool.and_eq_true]
    exact ⟨ihv rfl, ihl rfl⟩
  · intro t x h1 h2 h
    cases h
    cases t with
    | nil => exact (h1 rfl rfl).elim
    | cons v vs => exact (h2 v vs v vs rfl rfl).elim
  · exact fun _ => rfl
  · intro k x xs l y ys ihv ihl h
    cases h
    simp [JsVal.beqObj, ihv rfl, ihl rfl]
  · intro t x h1 h2 h
    cases h
    cases t with
    | nil => exact (h1 rfl rfl).elim
    | cons p ps => exact (h2 p.1 p.2 ps p.1 p.2 ps rfl rfl).elim

instance : DecidableEq JsVal := fun a b =>
  if h : JsVal.beq a b = true then isTrue (JsVal.eq_of_beq a b h)
  else isFalse fun he => h (JsVal.beq_of_eq a b he)

instance {ε α : Type} [DecidableEq ε] [DecidableEq α] : DecidableEq (Except ε α) :=
  fun a b =>
    match a, b with
    | .ok x, .ok y =>
      if h : x = y then isTrue (congrArg Except.ok h)
      else isFalse (fun he => h (Except.ok.inj he))
    | .error x, .error y =>
      if h : x = y then isTrue (congrArg Except.error h)
      else isFalse (fun he => h (Except.error.inj he))
    | .ok _, .error _ => isFalse (fun he => Except.noConfusion he)
    | .error _, .ok _ => isFalse (fun he => Except.noConfusion he)

/-- JS truthiness of a value. -/
def jsTruthy : JsVal → Bool
  | vnull => false
  | vundefined => false
  | vbool b => b
  | vnum n => n != 0
  | vstr s => s != ""
  | varr _ => true
  | vobj _ => true

/-- `Array.isArray`. -/
def jsIsArray : JsVal → Bool
  | varr _ => true
  | _ => false

/-- `typeof v === "object"` (true for `null`, arrays and plain objects). -/
def jsTypeofObject : JsVal → Bool
  | vnull => true
  | varr _ => true
  | vobj _ => true
  | _ => false

/-- Is the value a primitive (neither an array nor an object)? -/
def jsIsPrim : JsVal → Bool
  | varr _ => false
  | vobj _ => false
  | _ => true

/-- SameValueZero / strict equality as they behave on values whose composites
are pairwise-distinct references (always the case for values freshly produced
by `JSON.parse` and for the arrays this module builds): structural equality on
primitives, `false` whenever a composite is involved. -/
def jsEqPrim (a b : JsVal) : Bool :=
  jsIsPrim a && jsIsPrim b && (a == b)

mutual
/-- JS `String(v)` coercion on JSON-like values.  Integral numbers print in
decimal; arrays print as their elements joined by commas with `null` and
`undefined` elements rendered empty; plain objects print `"[object Object]"`. -/
def jsToString : JsVal → String
  | vnull => "null"
  | vundefined => "undefined"
  | vbool true => "true"
  | vbool false => "false"
  | vnum n => toString n
  | vstr s => s
  | varr xs => jsToStringArr xs
  | vobj _ => "[object Object]"

/-- `Array.prototype.toString` body: `join(",")`. -/
def jsToStringArr : List JsVal → String
  | [] => ""
  | [x] =>
    match x with
    | vnull => ""
    | vundefined => ""
    | y => jsToString y
  | x :: xs =>
    (match x with
      | vnull => ""
      | vundefined => ""
      | y => jsToString y) ++ "," ++ jsToStringArr xs
end

/-- JS property read `v[k]` for a string key: throws a TypeError on `null`
and `undefined`, reads the field of a plain object (`undefined` when the key
is missing; objects have unique keys), and reads `undefined` off arrays,
booleans, numbers and strings (the keys this module uses — `"items"`,
`"collections"`, `"id"`, `"name"`, `"placeIds"` and user emails — are never
array indices or string indices). -/
def getField (v : JsVal) (k : String) : Except String JsVal :=
  match v with
  | vnull => .error "TypeError"
  | vundefined => .error "TypeError"
  | vobj fs => .ok (((fs.find? (fun p => p.1 == k)).map Prod.snd).getD vundefined)
  | _ => .ok vundefined

/-- `Object.entries` restricted to the shapes it is applied to in the module
(plain objects and arrays; it is only reached behind a
`typeof v === "object"` and truthiness guard). -/
def jsEntries : JsVal → List (String × JsVal)
  | vobj fs => fs
  | varr xs => (xs.enum).map (fun p => (toString p.1, p.2))
  | _ => []

/-- Read a key from a JS object represented as a unique-key association list. -/
def objGet {α : Type} (l : List (String × α)) (k : String) : Option α :=
  (l.find? (fun p => p.1 == k)).map Prod.snd

/-- JS property write `o[k] = v`: updates the existing key in place (property
order is preserved) or appends a new key. -/
def objSet {α : Type} (l : List (String × α)) (k : String) (v : α) :
    List (String × α) :=
  if l.any (fun p => p.1 == k) then
    l.map (fun p => if p.1 == k then (k, v) else p)
  else l ++ [(k, v)]

/-- JS `delete o[k]`. -/
def objDel {α : Type} (l : List (String × α)) (k : String) : List (String × α) :=
  l.filter (fun p => !(p.1 == k))

/-- `Object.fromEntries`: builds an object left to right, later duplicate keys
overwriting earlier ones in place. -/
def fromEntries {α : Type} (l : List (String × α)) : List (String × α) :=
  l.foldl (fun acc p => objSet acc p.1 p.2) []

/-- `Array.prototype.includes` (SameValueZero, under the fresh-reference
reading of `jsEqPrim`). -/
def jsIncludes (l : List JsVal) (v : JsVal) : Bool :=
  l.any (fun x => jsEqPrim x v)

/-- `Set.prototype.add` on an insertion-ordered set represented as a list. -/
def setAdd (l : List JsVal) (v : JsVal) : List JsVal :=
  if l.any (fun x => jsEqPrim x v) then l else l ++ [v]

/-- `new Set(list)` (keeps first occurrences, in order). -/
def jsSetOfList (l : List JsVal) : List JsVal :=
  l.foldl setAdd []

/-- A logged-in user as produced by `getCurrentUser` (`{ name, email }`).  The
saved-data operations take `Option User`; `none` stands for every falsy user
value (`null`, `undefined`, …), which is all the guards `if (!user)` test. -/
structure User where
  name : String
  email : String
  deriving Repr, DecidableEq

/-- A collection record as produced by `normalizeCollections`:
`{ id, name, placeIds }`.  `id` and `name` stay arbitrary JS values (corrupted
entries can carry non-string ids or names); `placeIds` is always an array. -/
structure SavedCollection where
  id : JsVal
  name : JsVal
  placeIds : List JsVal
  deriving Repr, DecidableEq

/-- A per-user entry as produced by `normalizeEntry`:
`{ items, collections }` with `collections` keyed by collection id (insertion
ordered, unique keys). -/
structure SavedEntry where
  items : List JsVal
  collections : List (String × SavedCollection)
  deriving Repr, DecidableEq

/-- The parsed JSON value persisted in `localStorage` under
`"seamline_saved_places"`.  Ordinarily an object keyed by user email, but
`localStorage` can hold any JSON text, so the model ranges over every
`JsVal` (`null`, primitives and arrays included). -/
abbrev SavedStore := JsVal

/-- The JS object value of a normalized collection record (what
`JSON.stringify` serialises when the entry is written back). -/
def encodeCollection (c : SavedCollection) : JsVal :=
  vobj [("id", c.id), ("name", c.name), ("placeIds", varr c.placeIds)]

/-- The JS object value of a normalized entry. -/
def encodeEntry (e : SavedEntry) : JsVal :=
  vobj [("items", varr e.items),
        ("collections", vobj (e.collections.map (fun p => (p.1, encodeCollection p.2))))]

/-! ## The local-storage-only implementation, `src/utils/storage.js` -/

namespace Storage

/-- The traversal performed by `normalizeCollections`' `entries.map`,
evaluated left to right with JS exception propagation: each collection
value's `id`, `name` and `placeIds` are read (a `null` collection value makes
the property read throw a TypeError), the defaults are applied, and the pair
is re-keyed by the string coercion of the normalized id. -/
def normalizeColEntries :
    List (String × JsVal) → Except String (List (String × SavedCollection))
  | [] => .ok []
  | p :: rest =>
    match getField p.2 "id" with
    | .error e => .error e
    | .ok idv =>
      match getField p.2 "name" with
      | .error e => .error e
      | .ok namev =>
        match getField p.2 "placeIds" with
        | .error e => .error e
        | .ok pidsv =>
          match normalizeColEntries rest with
          | .error e => .error e
          | .ok tail =>
            .ok ((jsToString (if jsTruthy idv then idv else vstr p.1),
              SavedCollection.mk (if jsTruthy idv then idv else vstr p.1)
                (if jsTruthy namev then namev else vstr "Collection")
                (if jsIsArray pidsv then
                  match pidsv with
                  | varr xs => xs
                  | _ => []
                else [])) :: tail)

/-- `normalizeCollections` of `src/utils/storage.js` (lines 92-104): falsy or
non-object input yields `{}`; otherwise the entries are mapped (throwing a
TypeError at the first `null` collection value) and the result rebuilt with
`Object.fromEntries`. -/
def normalizeCollections (collections : JsVal) :
    Except String (List (String × SavedCollection)) :=
  if jsTruthy collections && jsTypeofObject collections then
    match normalizeColEntries (jsEntries collections) with
    | .error e => .error e
    | .ok entries => .ok (fromEntries entries)
  else .ok []

/-- `normalizeEntry` (lines 106-115): falsy entries become the empty entry, a
legacy bare array becomes the flat items list, and otherwise `entry.items`
and `entry.collections` are read (the entry is truthy here, so these two
reads cannot throw) and the collections normalized (which can throw). -/
def normalizeEntry (entry : JsVal) : Except String SavedEntry :=
  if jsTruthy entry then
    match entry with
    | varr xs => .ok ⟨xs, []⟩
    | _ =>
      match getField entry "items" with
      | .error e => .error e
      | .ok itemsv =>
        match getField entry "collections" with
        | .error e => .error e
        | .ok colsv =>
          match normalizeCollections colsv with
          | .error e => .error e
          | .ok cols =>
            .ok ⟨(if jsIsArray itemsv then
                match itemsv with
                | varr xs => xs
                | _ => []
              else []), cols⟩
  else .ok ⟨[], []⟩

/-- `getUserSavedData` (lines 117-122): reads `store[user.email]` (a `null`
store — `localStorage` holding the JSON text `"null"` — makes this read throw
a TypeError) and normalizes the entry. -/
def getUserSavedData (user : Option User) (store : SavedStore) :
    Except String SavedEntry :=
  match user with
  | none => .ok ⟨[], []⟩
  | some u =>
    match getField store u.email with
    | .error e => .error e
    | .ok entry => normalizeEntry entry

/-- `setUserSavedData` (lines 124-130): the property write
`store[user.email] = data` followed by `setSavedStore` (`JSON.stringify` plus
`localStorage.setItem`).  Both modules are ES modules, hence strict mode: a
property write on `null`, `undefined` or a primitive throws a TypeError; on
an array the expando property is assigned without error but `JSON.stringify`
drops it, so the persisted value is unchanged; on a plain object the key is
updated in place or appended. -/
def setUserSavedData (user : Option User) (data : SavedEntry) (store : SavedStore) :
    Except String SavedStore :=
  match user with
  | none => .ok store
  | some u =>
    match store with
    | vobj fs => .ok (vobj (objSet fs u.email (encodeEntry data)))
    | varr xs => .ok (varr xs)
    | _ => .error "TypeError"

/-- `getSavedPlaceIds` (lines 138-141). -/
def getSavedPlaceIds (user : Option User) (store : SavedStore) :
    Except String (List JsVal) :=
  match user with
  | none => .ok []
  | some _ =>
    match getUserSavedData user store with
    | .error e => .error e
    | .ok data => .ok data.items

/-- `isPlaceSaved` (lines 143-146). -/
def isPlaceSaved (user : Option User) (placeId : JsVal) (store : SavedStore) :
    Except String Bool :=
  match user with
  | none => .ok false
  | some _ =>
    match getSavedPlaceIds user store with
    | .error e => .error e
    | .ok ids => .ok (jsIncludes ids (vstr (jsToString placeId)))

/-- `savePlace` (lines 148-156).  A thrown error (the login guard, or a
TypeError while reading or writing) leaves `localStorage` untouched, so the
error results carry the input store. -/
def savePlace (user : Option User) (placeId : JsVal) (store : SavedStore) :
    Except String (List JsVal) × SavedStore :=
  match user with
  | none => (.error "Login required", store)
  | some _ =>
    match getUserSavedData user store with
    | .error e => (.error e, store)
    | .ok data =>
      let ids := setAdd (jsSetOfList data.items) (vstr (jsToString placeId))
      let data := { data with items := ids }
      match setUserSavedData user data store with
      | .error e => (.error e, store)
      | .ok store2 => (.ok data.items, store2)

/-- `removeSavedPlace` (lines 158-168). -/
def removeSavedPlace (user : Option User) (placeId : JsVal) (store : SavedStore) :
    Except String (List JsVal) × SavedStore :=
  match user with
  | none => (.error "Login required", store)
  | some _ =>
    match getUserSavedData user store with
    | .error e => (.error e, store)
    | .ok data =>
      let targetId := jsToString placeId
      let data :=
        { data with
          items := data.items.filter (fun id => !(jsEqPrim id (vstr targetId))),
          collections := data.collections.map (fun p =>
            (p.1, { p.2 with
                    placeIds := p.2.placeIds.filter
                      (fun id => !(jsEqPrim id (vstr targetId))) })) }
      match setUserSavedData user data store with
      | .error e => (.error e, store)
      | .ok store2 => (.ok data.items, store2)

/-- `getCollections` (lines 170-174). -/
def getCollections (user : Option User) (store : SavedStore) :
    Except String (List SavedCollection) :=
  match user with
  | none => .ok []
  | some _ =>
    match getUserSavedData user store with
    | .error e => .error e
    | .ok data => .ok (data.collections.map Prod.snd)

/-- `createCollection` (lines 176-185): the name guard runs before any store
access; `generateCollectionId()` draws on `Date.now()` and `Math.random()`,
so the generated id is passed in as the explicit argument `newId`; `name` is
`Option String` (`none` for `null`/`undefined`, which `name?.trim()` turns
into a falsy value). -/
def createCollection (user : Option User) (name : Option String) (newId : String)
    (store : SavedStore) : Except String SavedCollection × SavedStore :=
  match user with
  | none => (.error "Login required", store)
  | some _ =>
    match name.map String.trim with
    | none => (.error "Collection name is required.", store)
    | some trimmed =>
      if trimmed = "" then (.error "Collection name is required.", store)
      else
        match getUserSavedData user store with
        | .error e => (.error e, store)
        | .ok data =>
          let col : SavedCollection := ⟨vstr newId, vstr trimmed, []⟩
          let data := { data with collections := objSet data.collections newId col }
          match setUserSavedData user data store with
          | .error e => (.error e, store)
          | .ok store2 => (.ok col, store2)

/-- `deleteCollection` (lines 187-192). -/
def deleteCollection (user : Option User) (collectionId : String) (store : SavedStore) :
    Except String Unit × SavedStore :=
  match user with
  | none => (.error "Login required", store)
  | some _ =>
    match getUserSavedData user store with
    | .error e => (.error e, store)
    | .ok data =>
      let data := { data with collections := objDel data.collections collectionId }
      match setUserSavedData user data store with
      | .error e => (.error e, store)
      | .ok store2 => (.ok (), store2)

/-- `addPlaceToCollection` (lines 194-208). -/
def addPlaceToCollection (user : Option User) (collectionId : String) (placeId : JsVal)
    (store : SavedStore) : Except String SavedCollection × SavedStore :=
  match user with
  | none => (.error "Login required", store)
  | some _ =>
    match getUserSavedData user store with
    | .error e => (.error e, store)
    | .ok data =>
      match objGet data.collections collectionId with
      | none => (.error "Collection not found.", store)
      | some collection =>
        let items :=
          if jsIncludes data.items (vstr (jsToString placeId)) then data.items
          else data.items ++ [vstr (jsToString placeId)]
        let ids := setAdd (jsSetOfList collection.placeIds) (vstr (jsToString placeId))
        let collection := { collection with placeIds := ids }
        let data : SavedEntry := ⟨items, objSet data.collections collectionId collection⟩
        match setUserSavedData user data store with
        | .error e => (.error e, store)
        | .ok store2 => (.ok collection, store2)

/-- `removePlaceFromCollection` (lines 210-218). -/
def removePlaceFromCollection (user : Option User) (collectionId : String)
    (placeId : JsVal) (store : SavedStore) : Except String Unit × SavedStore :=
  match user with
  | none => (.error "Login required", store)
  | some _ =>
    match getUserSavedData user store with
    | .error e => (.error e, store)
    | .ok data =>
      match objGet data.collections collectionId with
      | none => (.ok (), store)
      | some collection =>
        let collection :=
          { collection with
            placeIds := collection.placeIds.filter
              (fun id => !(jsEqPrim id (vstr (jsToString placeId)))) }
        let data :=
          { data with collections := objSet data.collections collectionId collection }
        match setUserSavedData user data store with
        | .error e => (.error e, store)
        | .ok store2 => (.ok (), store2)

/-- `getCollectionPlaceIds` (lines 220-224). -/
def getCollectionPlaceIds (user : Option User) (collectionId : String)
    (store : SavedStore) : Except String (List JsVal) :=
  match user with
  | none => .ok []
  | some _ =>
    match getUserSavedData user store with
    | .error e => .error e
    | .ok data =>
      .ok (match objGet data.collections collectionId with
        | some c => c.placeIds
        | none => [])

/-- `isPlaceInCollection` (lines 226-230). -/
def isPlaceInCollection (user : Option User) (collectionId : String) (placeId : JsVal)
    (store : SavedStore) : Except String Bool :=
  match user with
  | none => .ok false
  | some _ =>
    match getCollectionPlaceIds user collectionId store with
    | .error e => .error e
    | .ok ids => .ok (jsIncludes ids (vstr (jsToString placeId)))

end Storage

/-! ## The remote-auth-backed implementation, `src/unnamed/part_001`

Authentication goes through the remote service (`supabase.auth`), but the
saved-data layer of this module is the same local-storage code: its
`getSavedStore`/`setSavedStore` read and write
`localStorage.getItem("seamline_saved_places")`, and none of the saved-data
functions calls the remote service.  The definitions below transcribe
`src/unnamed/part_001` lines 93-239. -/

namespace RemoteStorage

/-- The traversal performed by `normalizeCollections`' `entries.map`,
evaluated left to right with JS exception propagation: each collection
value's `id`, `name` and `placeIds` are read (a `null` collection value makes
the property read throw a TypeError), the defaults are applied, and the pair
is re-keyed by the string coercion of the normalized id. -/
def normalizeColEntries :
    List (String × JsVal) → Except String (List (String × SavedCollection))
  | [] => .ok []
  | p :: rest =>
    match getField p.2 "id" with
    | .error e => .error e
    | .ok idv =>
      match getField p.2 "name" with
      | .error e => .error e
      | .ok namev =>
        match getField p.2 "placeIds" with
        | .error e => .error e
        | .ok pidsv =>
          match normalizeColEntries rest with
          | .error e => .error e
          | .ok tail =>
            .ok ((jsToString (if jsTruthy idv then idv else vstr p.1),
              SavedCollection.mk (if jsTruthy idv then idv else vstr p.1)
                (if jsTruthy namev then namev else vstr "Collection")
                (if jsIsArray pidsv then
                  match pidsv with
                  | varr xs => xs
                  | _ => []
                else [])) :: tail)

/-- `normalizeCollections` of `src/unnamed/part_001` (lines 101-113): falsy or
non-object input yields `{}`; otherwise the entries are mapped (throwing a
TypeError at the first `null` collection value) and the result rebuilt with
`Object.fromEntries`. -/
def normalizeCollections (collections : JsVal) :
    Except String (List (String × SavedCollection)) :=
  if jsTruthy collections && jsTypeofObject collections then
    match normalizeColEntries (jsEntries collections) with
    | .error e => .error e
    | .ok entries => .ok (fromEntries entries)
  else .ok []

/-- `normalizeEntry` of `src/unnamed/part_001` (lines 115-124): falsy entries become the empty entry, a
legacy bare array becomes the flat items list, and otherwise `entry.items`
and `entry.collections` are read (the entry is truthy here, so these two
reads cannot throw) and the collections normalized (which can throw). -/
def normalizeEntry (entry : JsVal) : Except String SavedEntry :=
  if jsTruthy entry then
    match entry with
    | varr xs => .ok ⟨xs, []⟩
    | _ =>
      match getField entry "items" with
      | .error e => .error e
      | .ok itemsv =>
        match getField entry "collections" with
        | .error e => .error e
        | .ok colsv =>
          match normalizeCollections colsv with
          | .error e => .error e
          | .ok cols =>
            .ok ⟨(if jsIsArray itemsv then
                match itemsv with
                | varr xs => xs
                | _ => []
              else []), cols⟩
  else .ok ⟨[], []⟩

/-- `getUserSavedData` of `src/unnamed/part_001` (lines 126-131): reads `store[user.email]` (a `null`
store — `localStorage` holding the JSON text `"null"` — makes this read throw
a TypeError) and normalizes the entry. -/
def getUserSavedData (user : Option User) (store : SavedStore) :
    Except String SavedEntry :=
  match user with
  | none => .ok ⟨[], []⟩
  | some u =>
    match getField store u.email with
    | .error e => .error e
    | .ok entry => normalizeEntry entry

/-- `setUserSavedData` of `src/unnamed/part_001` (lines 133-139): the property write
`store[user.email] = data` followed by `setSavedStore` (`JSON.stringify` plus
`localStorage.setItem`).  Both modules are ES modules, hence strict mode: a
property write on `null`, `undefined` or a primitive throws a TypeError; on
an array the expando property is assigned without error but `JSON.stringify`
drops it, so the persisted value is unchanged; on a plain object the key is
updated in place or appended. -/
def setUserSavedData (user : Option User) (data : SavedEntry) (store : SavedStore) :
    Except String SavedStore :=
  match user with
  | none => .ok store
  | some u =>
    match store with
    | vobj fs => .ok (vobj (objSet fs u.email (encodeEntry data)))
    | varr xs => .ok (varr xs)
    | _ => .error "TypeError"

/-- `getSavedPlaceIds` of `src/unnamed/part_001` (lines 147-150). -/
def getSavedPlaceIds (user : Option User) (store : SavedStore) :
    Except String (List JsVal) :=
  match user with
  | none => .ok []
  | some _ =>
    match getUserSavedData user store with
    | .error e => .error e
    | .ok data => .ok data.items

/-- `isPlaceSaved` of `src/unnamed/part_001` (lines 152-155). -/
def isPlaceSaved (user : Option User) (placeId : JsVal) (store : SavedStore) :
    Except String Bool :=
  match user with
  | none => .ok false
  | some _ =>
    match getSavedPlaceIds user store with
    | .error e => .error e
    | .ok ids => .ok (jsIncludes ids (vstr (jsToString placeId)))

/-- `savePlace` of `src/unnamed/part_001` (lines 157-165).  A thrown error (the login guard, or a
TypeError while reading or writing) leaves `localStorage` untouched, so the
error results carry the input store. -/
def savePlace (user : Option User) (placeId : JsVal) (store : SavedStore) :
    Except String (List JsVal) × SavedStore :=
  match user with
  | none => (.error "Login required", store)
  | some _ =>
    match getUserSavedData user store with
    | .error e => (.error e, store)
    | .ok data =>
      let ids := setAdd (jsSetOfList data.items) (vstr (jsToString placeId))
      let data := { data with items := ids }
      match setUserSavedData user data store with
      | .error e => (.error e, store)
      | .ok store2 => (.ok data.items, store2)

/-- `removeSavedPlace` of `src/unnamed/part_001` (lines 167-177). -/
def removeSavedPlace (user : Option User) (placeId : JsVal) (store : SavedStore) :
    Except String (List JsVal) × SavedStore :=
  match user with
  | none => (.error "Login required", store)
  | some _ =>
    match getUserSavedData user store with
    | .error e => (.error e, store)
    | .ok data =>
      let targetId := jsToString placeId
      let data :=
        { data with
          items := data.items.filter (fun id => !(jsEqPrim id (vstr targetId))),
          collections := data.collections.map (fun p =>
            (p.1, { p.2 with
                    placeIds := p.2.placeIds.filter
                      (fun id => !(jsEqPrim id (vstr targetId))) })) }
      match setUserSavedData user data store with
      | .error e => (.error e, store)
      | .ok store2 => (.ok data.items, store2)

/-- `getCollections` of `src/unnamed/part_001` (lines 179-183). -/
def getCollections (user : Option User) (store : SavedStore) :
    Except String (List SavedCollection) :=
  match user with
  | none => .ok []
  | some _ =>
    match getUserSavedData user store with
    | .error e => .error e
    | .ok data => .ok (data.collections.map Prod.snd)

/-- `createCollection` of `src/unnamed/part_001` (lines 185-194): the name guard runs before any store
access; `generateCollectionId()` draws on `Date.now()` and `Math.random()`,
so the generated id is passed in as the explicit argument `newId`; `name` is
`Option String` (`none` for `null`/`undefined`, which `name?.trim()` turns
into a falsy value). -/
def createCollection (user : Option User) (name : Option String) (newId : String)
    (store : SavedStore) : Except String SavedCollection × SavedStore :=
  match user with
  | none => (.error "Login required", store)
  | some _ =>
    match name.map String.trim with
    | none => (.error "Collection name is required.", store)
    | some trimmed =>
      if trimmed = "" then (.error "Collection name is required.", store)
      else
        match getUserSavedData user store with
        | .error e => (.error e, store)
        | .ok data =>
          let col : SavedCollection := ⟨vstr newId, vstr trimmed, []⟩
          let data := { data with collections := objSet data.collections newId col }
          match setUserSavedData user data store with
          | .error e => (.error e, store)
          | .ok store2 => (.ok col, store2)

/-- `deleteCollection` of `src/unnamed/part_001` (lines 196-201). -/
def deleteCollection (user : Option User) (collectionId : String) (store : SavedStore) :
    Except String Unit × SavedStore :=
  match user with
  | none => (.error "Login required", store)
  | some _ =>
    match getUserSavedData user store with
    | .error e => (.error e, store)
    | .ok data =>
      let data := { data with collections := objDel data.collections collectionId }
      match setUserSavedData user data store with
      | .error e => (.error e, store)
      | .ok store2 => (.ok (), store2)

/-- `addPlaceToCollection` of `src/unnamed/part_001` (lines 203-217). -/
def addPlaceToCollection (user : Option User) (collectionId : String) (placeId : JsVal)
    (store : SavedStore) : Except String SavedCollection × SavedStore :=
  match user with
  | none => (.error "Login required", store)
  | some _ =>
    match getUserSavedData user store with
    | .error e => (.error e, store)
    | .ok data =>
      match objGet data.collections collectionId with
      | none => (.error "Collection not found.", store)
      | some collection =>
        let items :=
          if jsIncludes data.items (vstr (jsToString placeId)) then data.items
          else data.items ++ [vstr (jsToString placeId)]
        let ids := setAdd (jsSetOfList collection.placeIds) (vstr (jsToString placeId))
        let collection := { collection with placeIds := ids }
        let data : SavedEntry := ⟨items, objSet data.collections collectionId collection⟩
        match setUserSavedData user data store with
        | .error e => (.error e, store)
        | .ok store2 => (.ok collection, store2)

/-- `removePlaceFromCollection` of `src/unnamed/part_001` (lines 219-227). -/
def removePlaceFromCollection (user : Option User) (collectionId : String)
    (placeId : JsVal) (store : SavedStore) : Except String Unit × SavedStore :=
  match user with
  | none => (.error "Login required", store)
  | some _ =>
    match getUserSavedData user store with
    | .error e => (.error e, store)
    | .ok data =>
      match objGet data.collections collectionId with
      | none => (.ok (), store)
      | some collection =>
        let collection :=
          { collection with
            placeIds := collection.placeIds.filter
              (fun id => !(jsEqPrim id (vstr (jsToString placeId)))) }
        let data :=
          { data with collections := objSet data.collections collectionId collection }
        match setUserSavedData user data store with
        | .error e => (.error e, store)
        | .ok store2 => (.ok (), store2)

/-- `getCollectionPlaceIds` of `src/unnamed/part_001` (lines 229-233). -/
def getCollectionPlaceIds (user : Option User) (collectionId : String)
    (store : SavedStore) : Except String (List JsVal) :=
  match user with
  | none => .ok []
  | some _ =>
    match getUserSavedData user store with
    | .error e => .error e
    | .ok data =>
      .ok (match objGet data.collections collectionId with
        | some c => c.placeIds
        | none => [])

/-- `isPlaceInCollection` of `src/unnamed/part_001` (lines 235-239). -/
def isPlaceInCollection (user : Option User) (collectionId : String) (placeId : JsVal)
    (store : SavedStore) : Except String Bool :=
  match user with
  | none => .ok false
  | some _ =>
    match getCollectionPlaceIds user collectionId store with
    | .error e => .error e
    | .ok ids => .ok (jsIncludes ids (vstr (jsToString placeId)))

/-- The whole persistence-relevant state of the remote-auth-backed module: the
parsed `localStorage` value under `"seamline_saved_places"` together with the
state of the remote auth/database service (of arbitrary type `δ`, since the
module's saved-data functions never touch it — the `supabase` import is used
only by the auth functions). -/
structure AppState (δ : Type) where
  savedLocal : SavedStore
  remoteDb : δ

/-- `savePlace` of `src/unnamed/part_001` acting on the whole state: the body
contains no remote call, so only the parsed local store moves. -/
def savePlaceApp {δ : Type} (user : Option User) (placeId : JsVal)
    (st : AppState δ) : Except String (List JsVal) × AppState δ :=
  let r := savePlace user placeId st.savedLocal
  (r.1, ⟨r.2, st.remoteDb⟩)

/-- `removeSavedPlace` on the whole state. -/
def removeSavedPlaceApp {δ : Type} (user : Option User) (placeId : JsVal)
    (st : AppState δ) : Except String (List JsVal) × AppState δ :=
  let r := removeSavedPlace user placeId st.savedLocal
  (r.1, ⟨r.2, st.remoteDb⟩)

/-- `createCollection` on the whole state. -/
def createCollectionApp {δ : Type} (user : Option User) (name : Option String)
    (newId : String) (st : AppState δ) : Except String SavedCollection × AppState δ :=
  let r := createCollection user name newId st.savedLocal
  (r.1, ⟨r.2, st.remoteDb⟩)

/-- `deleteCollection` on the whole state. -/
def deleteCollectionApp {δ : Type} (user : Option User) (collectionId : String)
    (st : AppState δ) : Except String Unit × AppState δ :=
  let r := deleteCollection user collectionId st.savedLocal
  (r.1, ⟨r.2, st.remoteDb⟩)

/-- `addPlaceToCollection` on the whole state. -/
def addPlaceToCollectionApp {δ : Type} (user : Option User) (collectionId : String)
    (placeId : JsVal) (st : AppState δ) :
    Except String SavedCollection × AppState δ :=
  let r := addPlaceToCollection user collectionId placeId st.savedLocal
  (r.1, ⟨r.2, st.remoteDb⟩)

/-- `removePlaceFromCollection` on the whole state. -/
def removePlaceFromCollectionApp {δ : Type} (user : Option User)
    (collectionId : String) (placeId : JsVal) (st : AppState δ) :
    Except String Unit × AppState δ :=
  let r := removePlaceFromCollection user collectionId placeId st.savedLocal
  (r.1, ⟨r.2, st.remoteDb⟩)

/-- `getSavedPlaceIds` on the whole state (a pure read). -/
def getSavedPlaceIdsApp {δ : Type} (user : Option User) (st : AppState δ) :
    Except String (List JsVal) :=
  getSavedPlaceIds user st.savedLocal

/-- `getCollections` on the whole state (a pure read). -/
def getCollectionsApp {δ : Type} (user : Option User) (st : AppState δ) :
    Except String (List SavedCollection) :=
  getCollections user st.savedLocal

end RemoteStorage


/-! ## The `escapeHtml` sanitisation utility -/

/-- `String.prototype.replace(/c/g, r)` for a single-character pattern:
per-character substitution. -/
def replaceAllChar (s : String) (c : Char) (r : String) : String :=
  String.mk (s.data.flatMap (fun ch => if ch = c then r.data else [ch]))

/-- `escapeHtml` of the sanitisation module: the empty string on `null` and
`undefined`, otherwise six chained global single-character replacements on
`String(v)`, ampersands first. -/
def escapeHtml (v : JsVal) : String :=
  match v with
  | vnull => ""
  | vundefined => ""
  | _ =>
    replaceAllChar
      (replaceAllChar
        (replaceAllChar
          (replaceAllChar
            (replaceAllChar
              (replaceAllChar (jsToString v) '&' "&amp;")
              '<' "&lt;")
            '>' "&gt;")
          '"' "&quot;")
        '\'' "&#039;")
      '/' "&#x2F;"

/-- The per-character expansion that `escapeHtml` is claimed to apply to every
character of a string input. -/
def escChar (c : Char) : List Char :=
  if c = '&' then ['&', 'a', 'm', 'p', ';']
  else if c = '<' then ['&', 'l', 't', ';']
  else if c = '>' then ['&', 'g', 't', ';']
  else if c = '"' then ['&', 'q', 'u', 'o', 't', ';']
  else if c = '\'' then ['&', '#', '0', '3', '9', ';']
  else if c = '/' then ['&', '#', 'x', '2', 'F', ';']
  else [c]

/-- Every collection's `placeIds` is a subset of the flat items list. -/
def subsetInv (e : SavedEntry) : Prop :=
  ∀ p ∈ e.collections, ∀ x ∈ p.2.placeIds, x ∈ e.items

/-- Shape invariant of normalized entries: each collection sits under the
string coercion of its `id`, its `name` is truthy, its `id` is truthy or is
the (then empty) key itself, and keys are unique.  `normalizeEntry` always
produces it and every mutating operation preserves it. -/
def entryWF (e : SavedEntry) : Prop :=
  (∀ p ∈ e.collections,
      p.1 = jsToString p.2.id ∧ jsTruthy p.2.name = true ∧
        (jsTruthy p.2.id = true ∨ p.2.id = vstr p.1)) ∧
    (e.collections.map Prod.fst).Nodup

/-- `subsetInv` lifted to fallible normalization results: the subset property
is demanded of a successfully read entry, and nothing of a read that throws
(a thrown read aborts the operation before any write). -/
def subsetInvE : Except String SavedEntry → Prop
  | .ok d => subsetInv d
  | .error _ => True

/-- The entry stored under key `k` of a persisted store value (`none` when
the store is not a plain object or lacks the key). -/
def storeAt (s : SavedStore) (k : String) : Option JsVal :=
  match s with
  | vobj fs => objGet fs k
  | _ => none

instance (e : SavedEntry) : Decidable (subsetInv e) := by
  unfold subsetInv; infer_instance

instance (e : SavedEntry) : Decidable (entryWF e) := by
  unfold entryWF; infer_instance

instance (r : Except String SavedEntry) : Decidable (subsetInvE r) :=
  match r with
  | .ok d => inferInstanceAs (Decidable (subsetInv d))
  | .error _ => inferInstanceAs (Decidable True)

/-! ## Theorems

First, general lemmas about the JS-object and JS-set helpers; then the
round-trip between `normalizeEntry` and the persisted form; then one theorem
per specification claim. -/

theorem jsEqPrim_vstr_iff (x : JsVal) (s : String) :
    jsEqPrim x (vstr s) = true ↔ x = vstr s := by
  cases x <;> simp [jsEqPrim, jsIsPrim]

theorem jsEqPrim_vstr_self (s : String) : jsEqPrim (vstr s) (vstr s) = true := by
  simp [jsEqPrim, jsIsPrim]

theorem objGet_nil {α : Type} (k : String) : objGet ([] : List (String × α)) k = none :=
  rfl

theorem objGet_cons_pos {α : Type} (a : String × α) (l : List (String × α)) (k : String)
    (h : a.1 = k) : objGet (a :: l) k = some a.2 := by
  have hf : List.find? (fun p => p.1 == k) (a :: l) = some a :=
    List.find?_cons_of_pos _ (by simpa using h)
  simp [objGet, hf]

theorem objGet_cons_neg {α : Type} (a : String × α) (l : List (String × α)) (k : String)
    (h : a.1 ≠ k) : objGet (a :: l) k = objGet l k := by
  have hf : List.find? (fun p => p.1 == k) (a :: l) = List.find? (fun p => p.1 == k) l :=
    List.find?_cons_of_neg _ (by simpa using h)
  simp [objGet, hf]

theorem objGet_append {α : Type} (l₁ l₂ : List (String × α)) (k : String) :
    objGet (l₁ ++ l₂) k = (objGet l₁ k).or (objGet l₂ k) := by
  rw [objGet, List.find?_append]
  cases h : l₁.find? (fun p => p.1 == k) <;> simp [objGet, h]

theorem objGet_replace_self {α : Type} (l : List (String × α)) (k : String) (v : α)
    (h : l.any (fun p => p.1 == k) = true) :
    objGet (l.map (fun p => if p.1 == k then (k, v) else p)) k = some v := by
  induction l with
  | nil => simp at h
  | cons a as ih =>
    by_cases ha : a.1 = k
    · rw [List.map_cons, if_pos (by simpa using ha)]
      exact objGet_cons_pos _ _ _ rfl
    · have ha' : (a.1 == k) = false := by simpa using ha
      simp only [List.any_cons, ha', Bool.false_or] at h
      rw [List.map_cons, if_neg (by simp [ha'])]
      rw [objGet_cons_neg _ _ _ ha]
      exact ih h

theorem objGet_replace_ne {α : Type} (l : List (String × α)) (k k' : String) (v : α)
    (h : k' ≠ k) :
    objGet (l.map (fun p => if p.1 == k then (k, v) else p)) k' = objGet l k' := by
  induction l with
  | nil => rfl
  | cons a as ih =>
    by_cases ha : a.1 = k
    · rw [List.map_cons, if_pos (by simpa using ha)]
      rw [objGet_cons_neg ((k, v) : String × α) _ _ (fun e => h e.symm)]
      rw [objGet_cons_neg _ _ _ (fun e => h (ha.symm.trans e).symm)]
      exact ih
    · rw [List.map_cons, if_neg (by simpa using ha)]
      by_cases hak : a.1 = k'
      · rw [objGet_cons_pos _ _ _ hak, objGet_cons_pos _ _ _ hak]
      · rw [objGet_cons_neg _ _ _ hak, objGet_cons_neg _ _ _ hak]
        exact ih

theorem any_eq_false_forall {α : Type} (l : List (String × α)) (k : String)
    (h : l.any (fun p => p.1 == k) ≠ true) : ∀ a ∈ l, a.1 ≠ k := by
  intro a ha he
  exact h (List.any_eq_true.mpr ⟨a, ha, by simpa using he⟩)

theorem objGet_eq_none_of_not_any {α : Type} (l : List (String × α)) (k : String)
    (h : l.any (fun p => p.1 == k) ≠ true) : objGet l k = none := by
  rw [objGet, List.find?_eq_none.mpr]
  · rfl
  · intro a ha
    simpa using any_eq_false_forall l k h a ha

theorem objGet_objSet_self {α : Type} (l : List (String × α)) (k : String) (v : α) :
    objGet (objSet l k v) k = some v := by
  unfold objSet
  by_cases h : l.any (fun p => p.1 == k) = true
  · rw [if_pos h]
    exact objGet_replace_self l k v h
  · rw [if_neg h, objGet_append, objGet_eq_none_of_not_any l k h, Option.none_or]
    exact objGet_cons_pos (k, v) [] k rfl

theorem objGet_objSet_ne {α : Type} (l : List (String × α)) (k k' : String) (v : α)
    (h : k' ≠ k) : objGet (objSet l k v) k' = objGet l k' := by
  unfold objSet
  by_cases hany : l.any (fun p => p.1 == k) = true
  · rw [if_pos hany]
    exact objGet_replace_ne l k k' v h
  · rw [if_neg hany, objGet_append]
    rw [objGet_cons_neg ((k, v) : String × α) [] k' (fun e => h e.symm), objGet_nil]
    cases hg : objGet l k' <;> rfl

theorem mem_objSet {α : Type} (l : List (String × α)) (k : String) (v : α)
    (q : String × α) (h : q ∈ objSet l k v) : q ∈ l ∨ q = (k, v) := by
  unfold objSet at h
  by_cases hany : l.any (fun p => p.1 == k) = true
  · rw [if_pos hany] at h
    rcases List.mem_map.mp h with ⟨a, ha, rfl⟩
    by_cases hk : a.1 = k
    · right; simp [hk]
    · left; simpa [hk] using ha
  · rw [if_neg hany] at h
    rcases List.mem_append.mp h with h | h
    · exact .inl h
    · exact .inr (by simpa using h)

theorem keys_objSet {α : Type} (l : List (String × α)) (k : String) (v : α) :
    (objSet l k v).map Prod.fst =
      if l.any (fun p => p.1 == k) = true then l.map Prod.fst
      else l.map Prod.fst ++ [k] := by
  unfold objSet
  by_cases hany : l.any (fun p => p.1 == k) = true
  · rw [if_pos hany, if_pos hany, List.map_map]
    apply List.map_congr_left
    intro a _
    by_cases hk : a.1 = k
    · simp [hk]
    · simp [hk]
  · rw [if_neg hany, if_neg hany]
    simp

theorem keys_nodup_objSet {α : Type} (l : List (String × α)) (k : String) (v : α)
    (h : (l.map Prod.fst).Nodup) : ((objSet l k v).map Prod.fst).Nodup := by
  rw [keys_objSet]
  by_cases hany : l.any (fun p => p.1 == k) = true
  · rwa [if_pos hany]
  · rw [if_neg hany]
    refine List.Nodup.append h (by simp) ?_
    intro x hx hk1
    have hxk : x = k := by simpa using hk1
    subst hxk
    rcases List.mem_map.mp hx with ⟨a, ha, rfl⟩
    exact any_eq_false_forall l a.1 hany a ha rfl

theorem mem_objDel {α : Type} (l : List (String × α)) (k : String)
    (q : String × α) (h : q ∈ objDel l k) : q ∈ l :=
  List.mem_of_mem_filter h

theorem keys_nodup_objDel {α : Type} (l : List (String × α)) (k : String)
    (h : (l.map Prod.fst).Nodup) : ((objDel l k).map Prod.fst).Nodup := by
  have : (objDel l k).Sublist l := List.filter_sublist l
  exact (this.map Prod.fst).nodup h

theorem mem_fromEntries_aux {α : Type} (l : List (String × α))
    (acc : List (String × α)) (q : String × α)
    (h : q ∈ l.foldl (fun acc p => objSet acc p.1 p.2) acc) : q ∈ acc ∨ q ∈ l := by
  induction l generalizing acc with
  | nil => exact .inl h
  | cons a as ih =>
    rcases ih (objSet acc a.1 a.2) h with h' | h'
    · rcases mem_objSet acc a.1 a.2 q h' with h'' | h''
      · exact .inl h''
      · exact .inr (by simp [h''])
    · exact .inr (List.mem_cons_of_mem a h')

theorem mem_fromEntries {α : Type} (l : List (String × α)) (q : String × α)
    (h : q ∈ fromEntries l) : q ∈ l := by
  rcases mem_fromEntries_aux l [] q h with h' | h'
  · cases h'
  · exact h'

theorem keys_nodup_fromEntries_aux {α : Type} (l : List (String × α))
    (acc : List (String × α)) (h : (acc.map Prod.fst).Nodup) :
    ((l.foldl (fun acc p => objSet acc p.1 p.2) acc).map Prod.fst).Nodup := by
  induction l generalizing acc with
  | nil => exact h
  | cons a as ih => exact ih (objSet acc a.1 a.2) (keys_nodup_objSet acc a.1 a.2 h)

theorem keys_nodup_fromEntries {α : Type} (l : List (String × α)) :
    ((fromEntries l).map Prod.fst).Nodup :=
  keys_nodup_fromEntries_aux l [] (by simp)

theorem objSet_of_not_mem {α : Type} (l : List (String × α)) (k : String) (v : α)
    (h : ∀ a ∈ l, a.1 ≠ k) : objSet l k v = l ++ [(k, v)] := by
  unfold objSet
  rw [if_neg]
  intro hany
  rcases List.any_eq_true.mp hany with ⟨a, ha, he⟩
  exact h a ha (by simpa using he)

theorem fromEntries_of_keys_nodup_aux {α : Type} (l : List (String × α))
    (acc : List (String × α)) (h : ((acc ++ l).map Prod.fst).Nodup) :
    l.foldl (fun acc p => objSet acc p.1 p.2) acc = acc ++ l := by
  induction l generalizing acc with
  | nil => simp
  | cons a as ih =>
    have hno : ∀ b ∈ acc, b.1 ≠ a.1 := by
      intro b hb he
      rw [List.map_append] at h
      have hdisj := (List.nodup_append.mp h).2.2
      exact hdisj (he ▸ List.mem_map_of_mem Prod.fst hb) (by simp)
    have hstep : objSet acc a.1 a.2 = acc ++ [a] :=
      objSet_of_not_mem acc a.1 a.2 hno
    rw [List.foldl_cons, hstep, ih (acc ++ [a]) (by simpa using h)]
    simp

theorem fromEntries_of_keys_nodup {α : Type} (l : List (String × α))
    (h : (l.map Prod.fst).Nodup) : fromEntries l = l := by
  have := fromEntries_of_keys_nodup_aux l [] (by simpa using h)
  simpa using this

theorem jsEqPrim_true_elim (a b : JsVal) (h : jsEqPrim a b = true) :
    a = b ∧ jsIsPrim a = true := by
  unfold jsEqPrim at h
  simp only [Bool.and_eq_true, beq_iff_eq] at h
  exact ⟨h.2, h.1.1⟩

theorem mem_setAdd (l : List JsVal) (v x : JsVal) (h : x ∈ setAdd l v) :
    x ∈ l ∨ x = v := by
  unfold setAdd at h
  by_cases hany : l.any (fun y => jsEqPrim y v) = true
  · rw [if_pos hany] at h
    exact .inl h
  · rw [if_neg hany] at h
    rcases List.mem_append.mp h with h | h
    · exact .inl h
    · exact .inr (by simpa using h)

theorem mem_setAdd_of_mem (l : List JsVal) (v x : JsVal) (h : x ∈ l) :
    x ∈ setAdd l v := by
  unfold setAdd
  by_cases hany : l.any (fun y => jsEqPrim y v) = true
  · rwa [if_pos hany]
  · rw [if_neg hany]
    exact List.mem_append_left _ h

theorem target_mem_setAdd (l : List JsVal) (v : JsVal) : v ∈ setAdd l v := by
  unfold setAdd
  by_cases hany : l.any (fun y => jsEqPrim y v) = true
  · rw [if_pos hany]
    rcases List.any_eq_true.mp hany with ⟨y, hy, he⟩
    have := jsEqPrim_true_elim y v (by simpa using he)
    exact this.1 ▸ hy
  · rw [if_neg hany]
    exact List.mem_append_right _ (by simp)

theorem mem_jsSetOfList_aux (l acc : List JsVal) (x : JsVal)
    (h : x ∈ acc ∨ x ∈ l) : x ∈ l.foldl setAdd acc := by
  induction l generalizing acc with
  | nil =>
    rcases h with h | h
    · exact h
    · cases h
  | cons a as ih =>
    rw [List.foldl_cons]
    rcases h with h | h
    · exact ih (setAdd acc a) (.inl (mem_setAdd_of_mem acc a x h))
    · rcases List.mem_cons.mp h with rfl | h
      · exact ih (setAdd acc x) (.inl (target_mem_setAdd acc x))
      · exact ih (setAdd acc a) (.inr h)

theorem mem_jsSetOfList_of_mem (l : List JsVal) (x : JsVal) (h : x ∈ l) :
    x ∈ jsSetOfList l :=
  mem_jsSetOfList_aux l [] x (.inr h)

theorem mem_of_mem_jsSetOfList_aux (l acc : List JsVal) (x : JsVal)
    (h : x ∈ l.foldl setAdd acc) : x ∈ acc ∨ x ∈ l := by
  induction l generalizing acc with
  | nil => exact .inl h
  | cons a as ih =>
    rw [List.foldl_cons] at h
    rcases ih (setAdd acc a) h with h' | h'
    · rcases mem_setAdd acc a x h' with h'' | h''
      · exact .inl h''
      · exact .inr (by simp [h''])
    · exact .inr (List.mem_cons_of_mem a h')

theorem mem_of_mem_jsSetOfList (l : List JsVal) (x : JsVal)
    (h : x ∈ jsSetOfList l) : x ∈ l := by
  rcases mem_of_mem_jsSetOfList_aux l [] x h with h' | h'
  · cases h'
  · exact h'

theorem mem_of_objGet {α : Type} (l : List (String × α)) (k : String) (v : α)
    (h : objGet l k = some v) : (k, v) ∈ l := by
  unfold objGet at h
  cases hf : l.find? (fun p => p.1 == k) with
  | none => rw [hf] at h; cases h
  | some q =>
    rw [hf] at h
    have hq := List.mem_of_find?_eq_some hf
    have hq1 : q.1 = k := by simpa using List.find?_some hf
    have hq2 : q.2 = v := by simpa using h
    have : q = (k, v) := Prod.ext hq1 hq2
    rwa [this] at hq

theorem jsIncludes_vstr_iff (l : List JsVal) (t : String) :
    jsIncludes l (vstr t) = true ↔ vstr t ∈ l := by
  unfold jsIncludes
  rw [List.any_eq_true]
  constructor
  · rintro ⟨x, hx, he⟩
    have : x = vstr t := (jsEqPrim_vstr_iff x t).mp (by simpa using he)
    rwa [this] at hx
  · intro hm
    exact ⟨vstr t, hm, by simpa using jsEqPrim_vstr_self t⟩

theorem jsToString_vstr (s : String) : jsToString (vstr s) = s := by
  simp [jsToString]

theorem entryWF_set_items (e : SavedEntry) (l : List JsVal) (h : entryWF e) :
    entryWF ⟨l, e.collections⟩ :=
  ⟨h.1, h.2⟩

theorem entryWF_map_placeIds (e : SavedEntry) (l : List JsVal)
    (f : SavedCollection → List JsVal) (h : entryWF e) :
    entryWF ⟨l, e.collections.map (fun p => (p.1, { p.2 with placeIds := f p.2 }))⟩ := by
  constructor
  · intro p hp
    rcases List.mem_map.mp hp with ⟨q, hq, rfl⟩
    exact h.1 q hq
  · have : (e.collections.map
        (fun p => (p.1, { p.2 with placeIds := f p.2 }))).map Prod.fst =
        e.collections.map Prod.fst := by
      rw [List.map_map]
      rfl
    rw [this]
    exact h.2

theorem entryWF_objDel (e : SavedEntry) (l : List JsVal) (cid : String)
    (h : entryWF e) : entryWF ⟨l, objDel e.collections cid⟩ := by
  constructor
  · intro p hp
    exact h.1 p (mem_objDel e.collections cid p hp)
  · exact keys_nodup_objDel e.collections cid h.2

theorem entryWF_objSet_existing (e : SavedEntry) (l : List JsVal) (cid : String)
    (col col2 : SavedCollection) (h : entryWF e)
    (hget : objGet e.collections cid = some col)
    (hid : col2.id = col.id) (hname : col2.name = col.name) :
    entryWF ⟨l, objSet e.collections cid col2⟩ := by
  have hmem : (cid, col) ∈ e.collections := by
    unfold objGet at hget
    cases hf : e.collections.find? (fun p => p.1 == cid) with
    | none => rw [hf] at hget; cases hget
    | some q =>
      rw [hf] at hget
      have hq := List.mem_of_find?_eq_some hf
      have hq1 : q.1 = cid := by simpa using List.find?_some hf
      have hq2 : q.2 = col := by simpa using hget
      have : q = (cid, col) := Prod.ext hq1 hq2
      rwa [this] at hq
  obtain ⟨hk, hn, hd⟩ := h.1 (cid, col) hmem
  constructor
  · intro p hp
    rcases mem_objSet e.collections cid col2 p hp with hp' | hp'
    · exact h.1 p hp'
    · subst hp'
      refine ⟨by rw [hid]; exact hk, by rw [hname]; exact hn, ?_⟩
      rcases hd with h' | h'
      · exact .inl (by rw [hid]; exact h')
      · exact .inr (by rw [hid]; exact h')
  · exact keys_nodup_objSet e.collections cid col2 h.2

theorem entryWF_objSet_new (e : SavedEntry) (l : List JsVal) (newId trimmed : String)
    (h : entryWF e) (hne : trimmed ≠ "") :
    entryWF ⟨l, objSet e.collections newId ⟨vstr newId, vstr trimmed, []⟩⟩ := by
  constructor
  · intro p hp
    rcases mem_objSet e.collections newId _ p hp with hp' | hp'
    · exact h.1 p hp'
    · subst hp'
      refine ⟨(jsToString_vstr newId).symm, by simpa [jsTruthy] using hne, .inr rfl⟩
  · exact keys_nodup_objSet e.collections newId _ h.2
theorem replaceAllChar_data (s : String) (c : Char) (r : String) :
    (replaceAllChar s c r).data =
      s.data.flatMap (fun ch => if ch = c then r.data else [ch]) := rfl

theorem escapeHtml_step_eq_escChar (ch : Char) :
    ((if ch = '&' then "&amp;".data else [ch]).flatMap fun x =>
      (if x = '<' then "&lt;".data else [x]).flatMap fun x =>
        (if x = '>' then "&gt;".data else [x]).flatMap fun x =>
          (if x = '"' then "&quot;".data else [x]).flatMap fun x =>
            (if x = '\'' then "&#039;".data else [x]).flatMap fun y =>
              if y = '/' then "&#x2F;".data else [y]) = escChar ch := by
  by_cases h1 : ch = '&'
  · subst h1; decide
  · by_cases h2 : ch = '<'
    · subst h2; decide
    · by_cases h3 : ch = '>'
      · subst h3; decide
      · by_cases h4 : ch = '"'
        · subst h4; decide
        · by_cases h5 : ch = '\''
          · subst h5; decide
          · by_cases h6 : ch = '/'
            · subst h6; decide
            · simp [escChar, h1, h2, h3, h4, h5, h6]

theorem escapeHtml_vstr_data (s : String) :
    (escapeHtml (vstr s)).data = s.data.flatMap escChar := by
  show ((replaceAllChar (replaceAllChar (replaceAllChar (replaceAllChar
      (replaceAllChar (replaceAllChar (jsToString (vstr s)) '&' "&amp;") '<' "&lt;")
      '>' "&gt;") '"' "&quot;") '\'' "&#039;") '/' "&#x2F;")).data =
    s.data.flatMap escChar
  rw [replaceAllChar_data, replaceAllChar_data, replaceAllChar_data,
    replaceAllChar_data, replaceAllChar_data, replaceAllChar_data]
  rw [jsToString_vstr]
  rw [List.flatMap_assoc, List.flatMap_assoc, List.flatMap_assoc,
    List.flatMap_assoc, List.flatMap_assoc]
  have hfun : (fun ch => (if ch = '&' then "&amp;".data else [ch]).flatMap fun x =>
      (if x = '<' then "&lt;".data else [x]).flatMap fun x =>
        (if x = '>' then "&gt;".data else [x]).flatMap fun x =>
          (if x = '"' then "&quot;".data else [x]).flatMap fun x =>
            (if x = '\'' then "&#039;".data else [x]).flatMap fun y =>
              if y = '/' then "&#x2F;".data else [y]) = escChar :=
    funext escapeHtml_step_eq_escChar
  rw [hfun]

theorem escChar_all_safe (ch : Char) :
    (escChar ch).all
      (fun c => !(c == '<' || c == '>' || c == '"' || c == '\'' || c == '/')) = true := by
  by_cases h1 : ch = '&'
  · subst h1; decide
  · by_cases h2 : ch = '<'
    · subst h2; decide
    · by_cases h3 : ch = '>'
      · subst h3; decide
      · by_cases h4 : ch = '"'
        · subst h4; decide
        · by_cases h5 : ch = '\''
          · subst h5; decide
          · by_cases h6 : ch = '/'
            · subst h6; decide
            · simp [escChar, h1, h2, h3, h4, h5, h6]

/-- **C8.**  The HTML-escaping utility neutralises markup: escaping a string
expands it character by character (`escChar` sends `&` to `&amp;`, `<` to
`&lt;`, `>` to `&gt;`, `"` to `&quot;`, `'` to `&#039;`, `/` to `&#x2F;` and
keeps everything else), so every original `&` is rendered as `&amp;` and the
result contains no occurrence of `<`, `>`, `"`, `'` or `/`; escaping `null`
or `undefined` yields the empty string. -/
theorem escapeHtml_neutralises :
    (∀ s : String,
      (escapeHtml (vstr s)).data = s.data.flatMap escChar ∧
      (escapeHtml (vstr s)).data.all
        (fun c => !(c == '<' || c == '>' || c == '"' || c == '\'' || c == '/')) = true) ∧
    escapeHtml vnull = "" ∧ escapeHtml vundefined = "" := by
  refine ⟨?_, rfl, rfl⟩
  intro s
  refine ⟨escapeHtml_vstr_data s, ?_⟩
  rw [escapeHtml_vstr_data s, List.all_eq_true]
  intro x hx
  rcases List.mem_flatMap.mp hx with ⟨ch, _, hch⟩
  have hall := escChar_all_safe ch
  rw [List.all_eq_true] at hall
  exact hall x hch

/-! ### Both implementations run the same saved-data code

The saved-data layers of `src/utils/storage.js` and `src/unnamed/part_001`
are byte-identical, so the two transcriptions are extensionally equal. -/

theorem normalizeColEntries_impls_eq :
    Storage.normalizeColEntries = RemoteStorage.normalizeColEntries := by
  funext l
  induction l with
  | nil => rfl
  | cons p rest ih =>
    simp only [Storage.normalizeColEntries, RemoteStorage.normalizeColEntries, ih]

theorem getUserSavedData_impls_eq :
    Storage.getUserSavedData = RemoteStorage.getUserSavedData := by
  funext user store
  simp only [Storage.getUserSavedData, RemoteStorage.getUserSavedData,
    Storage.normalizeEntry, RemoteStorage.normalizeEntry,
    Storage.normalizeCollections, RemoteStorage.normalizeCollections,
    normalizeColEntries_impls_eq]

/-! ### Reading encoded entries back: the normalization round trip -/

theorem getField_vobj (fs : List (String × JsVal)) (k : String) :
    getField (vobj fs) k = .ok ((objGet fs k).getD vundefined) := rfl

theorem getField_encodeCollection_id (c : SavedCollection) :
    getField (encodeCollection c) "id" = .ok c.id := rfl

theorem getField_encodeCollection_name (c : SavedCollection) :
    getField (encodeCollection c) "name" = .ok c.name := rfl

theorem getField_encodeCollection_placeIds (c : SavedCollection) :
    getField (encodeCollection c) "placeIds" = .ok (varr c.placeIds) := rfl

theorem getField_encodeEntry_items (e : SavedEntry) :
    getField (encodeEntry e) "items" = .ok (varr e.items) := rfl

theorem getField_encodeEntry_collections (e : SavedEntry) :
    getField (encodeEntry e) "collections" =
      .ok (vobj (e.collections.map (fun p => (p.1, encodeCollection p.2)))) := rfl

theorem normalizeColEntries_nil : Storage.normalizeColEntries [] = .ok [] := rfl

theorem normalizeColEntries_cons (a : String × JsVal) (l : List (String × JsVal)) :
    Storage.normalizeColEntries (a :: l) =
      match getField a.2 "id" with
      | .error e => .error e
      | .ok idv =>
        match getField a.2 "name" with
        | .error e => .error e
        | .ok namev =>
          match getField a.2 "placeIds" with
          | .error e => .error e
          | .ok pidsv =>
            match Storage.normalizeColEntries l with
            | .error e => .error e
            | .ok tail =>
              .ok ((jsToString (if jsTruthy idv then idv else vstr a.1),
                SavedCollection.mk (if jsTruthy idv then idv else vstr a.1)
                  (if jsTruthy namev then namev else vstr "Collection")
                  (if jsIsArray pidsv then
                    match pidsv with
                    | varr xs => xs
                    | _ => []
                  else [])) :: tail) := by
  rw [Storage.normalizeColEntries]

theorem normalizeColEntries_encode (cols : List (String × SavedCollection))
    (hwf : ∀ p ∈ cols, p.1 = jsToString p.2.id ∧ jsTruthy p.2.name = true ∧
      (jsTruthy p.2.id = true ∨ p.2.id = vstr p.1)) :
    Storage.normalizeColEntries (cols.map (fun p => (p.1, encodeCollection p.2))) =
      .ok cols := by
  induction cols with
  | nil => rfl
  | cons p rest ih =>
    obtain ⟨hk, hname, hdisj⟩ := hwf p (List.mem_cons_self p rest)
    have ihh := ih (fun q hq => hwf q (List.mem_cons_of_mem p hq))
    simp only [List.map_cons, normalizeColEntries_cons, getField_encodeCollection_id,
      getField_encodeCollection_name, getField_encodeCollection_placeIds, ihh,
      jsIsArray, if_true]
    rw [if_pos hname]
    by_cases hid : jsTruthy p.2.id = true
    · rw [if_pos hid, ← hk]
    · rcases hdisj with h | h
      · exact absurd h hid
      · rw [if_neg hid, ← h, ← hk]

theorem normalizeCollections_encode (cols : List (String × SavedCollection))
    (hwf : ∀ p ∈ cols, p.1 = jsToString p.2.id ∧ jsTruthy p.2.name = true ∧
      (jsTruthy p.2.id = true ∨ p.2.id = vstr p.1))
    (hnd : (cols.map Prod.fst).Nodup) :
    Storage.normalizeCollections
      (vobj (cols.map (fun p => (p.1, encodeCollection p.2)))) = .ok cols := by
  unfold Storage.normalizeCollections
  rw [if_pos (show (jsTruthy (vobj (cols.map (fun p => (p.1, encodeCollection p.2)))) &&
    jsTypeofObject (vobj (cols.map (fun p => (p.1, encodeCollection p.2))))) = true
    from rfl)]
  have hentries :
      jsEntries (vobj (cols.map (fun p => (p.1, encodeCollection p.2)))) =
        cols.map (fun p => (p.1, encodeCollection p.2)) := rfl
  rw [hentries]
  simp only [normalizeColEntries_encode cols hwf]
  rw [fromEntries_of_keys_nodup cols hnd]

theorem normalizeEntry_vobj (fs : List (String × JsVal)) :
    Storage.normalizeEntry (vobj fs) =
      match Storage.normalizeCollections ((objGet fs "collections").getD vundefined) with
      | .error e => .error e
      | .ok cols =>
        .ok ⟨(if jsIsArray ((objGet fs "items").getD vundefined) then
            match (objGet fs "items").getD vundefined with
            | varr xs => xs
            | _ => []
          else []), cols⟩ := rfl

theorem normalizeEntry_encode (d : SavedEntry) (h : entryWF d) :
    Storage.normalizeEntry (encodeEntry d) = .ok d := by
  show Storage.normalizeEntry (vobj [("items", varr d.items),
    ("collections", vobj (d.collections.map (fun p => (p.1, encodeCollection p.2))))]) =
    .ok d
  rw [normalizeEntry_vobj]
  have hc : ((objGet [("items", varr d.items),
      ("collections", vobj (d.collections.map (fun p => (p.1, encodeCollection p.2))))]
        "collections").getD vundefined) =
      vobj (d.collections.map (fun p => (p.1, encodeCollection p.2))) := rfl
  rw [hc]
  simp only [normalizeCollections_encode d.collections h.1 h.2]
  rfl

/-! ### Successful normalization yields well-formed entries -/

theorem normalizeColEntries_ok_wf (l : List (String × JsVal))
    (res : List (String × SavedCollection))
    (h : Storage.normalizeColEntries l = .ok res) :
    ∀ p ∈ res, p.1 = jsToString p.2.id ∧ jsTruthy p.2.name = true ∧
      (jsTruthy p.2.id = true ∨ p.2.id = vstr p.1) := by
  induction l generalizing res with
  | nil =>
    rw [normalizeColEntries_nil] at h
    injection h with h
    subst h
    intro p hp
    cases hp
  | cons a l ih =>
    rw [normalizeColEntries_cons] at h
    cases hid : getField a.2 "id" with
    | error e =>
      simp only [hid] at h
      exact Except.noConfusion h
    | ok idv =>
      cases hname : getField a.2 "name" with
      | error e =>
        simp only [hid, hname] at h
        exact Except.noConfusion h
      | ok namev =>
        cases hpids : getField a.2 "placeIds" with
        | error e =>
          simp only [hid, hname, hpids] at h
          exact Except.noConfusion h
        | ok pidsv =>
          cases htail : Storage.normalizeColEntries l with
          | error e =>
            simp only [hid, hname, hpids, htail] at h
            exact Except.noConfusion h
          | ok tail =>
            simp only [hid, hname, hpids, htail] at h
            injection h with h
            subst h
            intro p hp
            cases hp with
            | head =>
              refine ⟨rfl, ?_, ?_⟩
              · by_cases hn : jsTruthy namev = true
                · rw [if_pos hn]
                  exact hn
                · rw [if_neg hn]
                  rfl
              · by_cases hi : jsTruthy idv = true
                · left
                  rw [if_pos hi]
                  exact hi
                · right
                  rw [if_neg hi, jsToString_vstr]
            | tail _ hp => exact ih tail htail p hp

theorem normalizeCollections_ok_wf (v : JsVal) (res : List (String × SavedCollection))
    (h : Storage.normalizeCollections v = .ok res) :
    (∀ p ∈ res, p.1 = jsToString p.2.id ∧ jsTruthy p.2.name = true ∧
      (jsTruthy p.2.id = true ∨ p.2.id = vstr p.1)) ∧
    (res.map Prod.fst).Nodup := by
  unfold Storage.normalizeCollections at h
  by_cases hc : (jsTruthy v && jsTypeofObject v) = true
  · rw [if_pos hc] at h
    cases hn : Storage.normalizeColEntries (jsEntries v) with
    | error e =>
      simp only [hn] at h
      exact Except.noConfusion h
    | ok entries =>
      simp only [hn] at h
      injection h with h
      subst h
      exact ⟨fun p hp => normalizeColEntries_ok_wf _ _ hn p (mem_fromEntries _ p hp),
        keys_nodup_fromEntries _⟩
  · rw [if_neg hc] at h
    injection h with h
    subst h
    exact ⟨fun p hp => absurd hp (List.not_mem_nil p), by simp⟩

theorem normalizeEntry_ok_wf (v : JsVal) (d : SavedEntry)
    (h : Storage.normalizeEntry v = .ok d) : entryWF d := by
  unfold Storage.normalizeEntry at h
  by_cases ht : jsTruthy v = true
  · rw [if_pos ht] at h
    cases v with
    | vnull => exact absurd ht (by decide)
    | vundefined => exact absurd ht (by decide)
    | vbool b =>
      injection h with h
      subst h
      decide
    | vnum n =>
      injection h with h
      subst h
      decide
    | vstr s =>
      injection h with h
      subst h
      decide
    | varr xs =>
      injection h with h
      subst h
      exact ⟨fun p hp => absurd hp (List.not_mem_nil p), by simp⟩
    | vobj fs =>
      rw [show ((match vobj fs with
          | varr xs => (.ok ⟨xs, []⟩ : Except String SavedEntry)
          | _ =>
            match getField (vobj fs) "items" with
            | .error e => .error e
            | .ok itemsv =>
              match getField (vobj fs) "collections" with
              | .error e => .error e
              | .ok colsv =>
                match Storage.normalizeCollections colsv with
                | .error e => .error e
                | .ok cols =>
                  .ok ⟨(if jsIsArray itemsv then
                      match itemsv with
                      | varr xs => xs
                      | _ => []
                    else []), cols⟩) : Except String SavedEntry) =
          match Storage.normalizeCollections ((objGet fs "collections").getD vundefined)
            with
          | .error e => .error e
          | .ok cols =>
            .ok ⟨(if jsIsArray ((objGet fs "items").getD vundefined) then
                match (objGet fs "items").getD vundefined with
                | varr xs => xs
                | _ => []
              else []), cols⟩ from rfl] at h
      cases hnc : Storage.normalizeCollections ((objGet fs "collections").getD vundefined)
        with
      | error e =>
        simp only [hnc] at h
        exact Except.noConfusion h
      | ok cols =>
        simp only [hnc] at h
        injection h with h
        subst h
        exact normalizeCollections_ok_wf _ _ hnc
  · rw [if_neg ht] at h
    injection h with h
    subst h
    decide

theorem getUserSavedData_ok_wf (user : Option User) (s : SavedStore) (d : SavedEntry)
    (h : Storage.getUserSavedData user s = .ok d) : entryWF d := by
  cases user with
  | none =>
    injection h with h
    subst h
    decide
  | some u =>
    unfold Storage.getUserSavedData at h
    cases hf : getField s u.email with
    | error e =>
      simp only [hf] at h
      exact Except.noConfusion h
    | ok entry =>
      simp only [hf] at h
      exact normalizeEntry_ok_wf entry d h

/-! ### Reads and writes on the possible store shapes -/

theorem getUserSavedData_vobj (u : User) (fs : List (String × JsVal)) :
    Storage.getUserSavedData (some u) (vobj fs) =
      Storage.normalizeEntry ((objGet fs u.email).getD vundefined) := rfl

theorem getUserSavedData_write_read (u : User) (fs : List (String × JsVal))
    (d : SavedEntry) (hwf : entryWF d) :
    Storage.getUserSavedData (some u) (vobj (objSet fs u.email (encodeEntry d))) =
      .ok d := by
  rw [getUserSavedData_vobj, objGet_objSet_self, Option.getD_some]
  exact normalizeEntry_encode d hwf

theorem setUserSavedData_ok_cases (u : User) (d : SavedEntry) (s s2 : SavedStore)
    (h : Storage.setUserSavedData (some u) d s = .ok s2) :
    (∃ fs, s = vobj fs ∧ s2 = vobj (objSet fs u.email (encodeEntry d))) ∨
    (∃ xs, s = varr xs ∧ s2 = varr xs) := by
  cases s with
  | vobj fs =>
    left
    injection h with h
    exact ⟨fs, rfl, h.symm⟩
  | varr xs =>
    right
    injection h with h
    exact ⟨xs, rfl, h.symm⟩
  | vnull => exact Except.noConfusion h
  | vundefined => exact Except.noConfusion h
  | vbool b => exact Except.noConfusion h
  | vnum n => exact Except.noConfusion h
  | vstr str => exact Except.noConfusion h

/-! ### Unfolding the operations at a logged-in user -/

theorem savePlace_some (u : User) (p : JsVal) (s : SavedStore) :
    Storage.savePlace (some u) p s =
      match Storage.getUserSavedData (some u) s with
      | .error e => (.error e, s)
      | .ok d =>
        match Storage.setUserSavedData (some u)
            ⟨setAdd (jsSetOfList d.items) (vstr (jsToString p)), d.collections⟩ s with
        | .error e => (.error e, s)
        | .ok s2 =>
          (.ok (setAdd (jsSetOfList d.items) (vstr (jsToString p))), s2) := rfl

theorem removeSavedPlace_some (u : User) (p : JsVal) (s : SavedStore) :
    Storage.removeSavedPlace (some u) p s =
      match Storage.getUserSavedData (some u) s with
      | .error e => (.error e, s)
      | .ok d =>
        match Storage.setUserSavedData (some u)
            ⟨d.items.filter (fun id => !(jsEqPrim id (vstr (jsToString p)))),
              d.collections.map (fun q =>
                (q.1, { q.2 with
                        placeIds := q.2.placeIds.filter
                          (fun id => !(jsEqPrim id (vstr (jsToString p)))) }))⟩ s with
        | .error e => (.error e, s)
        | .ok s2 =>
          (.ok (d.items.filter (fun id => !(jsEqPrim id (vstr (jsToString p))))), s2) :=
  rfl

theorem createCollection_some (u : User) (n : Option String) (i : String)
    (s : SavedStore) :
    Storage.createCollection (some u) n i s =
      match n.map String.trim with
      | none => (.error "Collection name is required.", s)
      | some trimmed =>
        if trimmed = "" then (.error "Collection name is required.", s)
        else
          match Storage.getUserSavedData (some u) s with
          | .error e => (.error e, s)
          | .ok d =>
            match Storage.setUserSavedData (some u)
                ⟨d.items, objSet d.collections i ⟨vstr i, vstr trimmed, []⟩⟩ s with
            | .error e => (.error e, s)
            | .ok s2 => (.ok ⟨vstr i, vstr trimmed, []⟩, s2) := rfl

theorem deleteCollection_some (u : User) (cid : String) (s : SavedStore) :
    Storage.deleteCollection (some u) cid s =
      match Storage.getUserSavedData (some u) s with
      | .error e => (.error e, s)
      | .ok d =>
        match Storage.setUserSavedData (some u)
            ⟨d.items, objDel d.collections cid⟩ s with
        | .error e => (.error e, s)
        | .ok s2 => (.ok (), s2) := rfl

theorem addPlaceToCollection_some (u : User) (cid : String) (p : JsVal)
    (s : SavedStore) :
    Storage.addPlaceToCollection (some u) cid p s =
      match Storage.getUserSavedData (some u) s with
      | .error e => (.error e, s)
      | .ok d =>
        match objGet d.collections cid with
        | none => (.error "Collection not found.", s)
        | some c =>
          match Storage.setUserSavedData (some u)
              ⟨(if jsIncludes d.items (vstr (jsToString p)) then d.items
                else d.items ++ [vstr (jsToString p)]),
                objSet d.collections cid
                  ⟨c.id, c.name, setAdd (jsSetOfList c.placeIds) (vstr (jsToString p))⟩⟩
              s with
          | .error e => (.error e, s)
          | .ok s2 =>
            (.ok ⟨c.id, c.name, setAdd (jsSetOfList c.placeIds) (vstr (jsToString p))⟩,
              s2) := rfl

theorem removePlaceFromCollection_some (u : User) (cid : String) (p : JsVal)
    (s : SavedStore) :
    Storage.removePlaceFromCollection (some u) cid p s =
      match Storage.getUserSavedData (some u) s with
      | .error e => (.error e, s)
      | .ok d =>
        match objGet d.collections cid with
        | none => (.ok (), s)
        | some c =>
          match Storage.setUserSavedData (some u)
              ⟨d.items, objSet d.collections cid
                ⟨c.id, c.name,
                  c.placeIds.filter
                    (fun id => !(jsEqPrim id (vstr (jsToString p))))⟩⟩ s with
          | .error e => (.error e, s)
          | .ok s2 => (.ok (), s2) := rfl

theorem createCollection_none (u : User) (i : String) (s : SavedStore) :
    Storage.createCollection (some u) none i s =
      (.error "Collection name is required.", s) := rfl

theorem createCollection_some_some (u : User) (nm : String) (i : String)
    (s : SavedStore) :
    Storage.createCollection (some u) (some nm) i s =
      if nm.trim = "" then (.error "Collection name is required.", s)
      else
        match Storage.getUserSavedData (some u) s with
        | .error e => (.error e, s)
        | .ok d =>
          match Storage.setUserSavedData (some u)
              ⟨d.items, objSet d.collections i ⟨vstr i, vstr nm.trim, []⟩⟩ s with
          | .error e => (.error e, s)
          | .ok s2 => (.ok ⟨vstr i, vstr nm.trim, []⟩, s2) := rfl

/-! ### Where each mutating operation leaves the store -/

theorem savePlace_store (u : User) (p : JsVal) (s : SavedStore) :
    (Storage.savePlace (some u) p s).2 = s ∨
    ∃ fs d, s = vobj fs ∧ Storage.getUserSavedData (some u) s = .ok d ∧
      (Storage.savePlace (some u) p s).2 =
        vobj (objSet fs u.email (encodeEntry
          ⟨setAdd (jsSetOfList d.items) (vstr (jsToString p)), d.collections⟩)) := by
  cases hg : Storage.getUserSavedData (some u) s with
  | error e =>
    left
    simp only [savePlace_some, hg]
  | ok d =>
    cases hw : Storage.setUserSavedData (some u)
        ⟨setAdd (jsSetOfList d.items) (vstr (jsToString p)), d.collections⟩ s with
    | error e =>
      left
      simp only [savePlace_some, hg, hw]
    | ok s2 =>
      rcases setUserSavedData_ok_cases u _ s s2 hw with ⟨fs, rfl, rfl⟩ | ⟨xs, rfl, rfl⟩
      · right
        refine ⟨fs, d, rfl, rfl, ?_⟩
        simp only [savePlace_some, hg, hw]
      · left
        simp only [savePlace_some, hg, hw]

theorem removeSavedPlace_store (u : User) (p : JsVal) (s : SavedStore) :
    (Storage.removeSavedPlace (some u) p s).2 = s ∨
    ∃ fs d, s = vobj fs ∧ Storage.getUserSavedData (some u) s = .ok d ∧
      (Storage.removeSavedPlace (some u) p s).2 =
        vobj (objSet fs u.email (encodeEntry
          ⟨d.items.filter (fun id => !(jsEqPrim id (vstr (jsToString p)))),
            d.collections.map (fun q =>
              (q.1, { q.2 with
                      placeIds := q.2.placeIds.filter
                        (fun id => !(jsEqPrim id (vstr (jsToString p)))) }))⟩)) := by
  cases hg : Storage.getUserSavedData (some u) s with
  | error e =>
    left
    simp only [removeSavedPlace_some, hg]
  | ok d =>
    cases hw : Storage.setUserSavedData (some u)
        ⟨d.items.filter (fun id => !(jsEqPrim id (vstr (jsToString p)))),
          d.collections.map (fun q =>
            (q.1, { q.2 with
                    placeIds := q.2.placeIds.filter
                      (fun id => !(jsEqPrim id (vstr (jsToString p)))) }))⟩ s with
    | error e =>
      left
      simp only [removeSavedPlace_some, hg, hw]
    | ok s2 =>
      rcases setUserSavedData_ok_cases u _ s s2 hw with ⟨fs, rfl, rfl⟩ | ⟨xs, rfl, rfl⟩
      · right
        refine ⟨fs, d, rfl, rfl, ?_⟩
        simp only [removeSavedPlace_some, hg, hw]
      · left
        simp only [removeSavedPlace_some, hg, hw]

theorem createCollection_store (u : User) (n : Option String) (i : String)
    (s : SavedStore) :
    (Storage.createCollection (some u) n i s).2 = s ∨
    ∃ fs d nm, s = vobj fs ∧ n = some nm ∧ nm.trim ≠ "" ∧
      Storage.getUserSavedData (some u) s = .ok d ∧
      (Storage.createCollection (some u) n i s).2 =
        vobj (objSet fs u.email (encodeEntry
          ⟨d.items, objSet d.collections i ⟨vstr i, vstr nm.trim, []⟩⟩)) := by
  cases n with
  | none =>
    left
    simp only [createCollection_none]
  | some nm =>
    by_cases hne : nm.trim = ""
    · left
      simp only [createCollection_some_some, if_pos hne]
    · cases hg : Storage.getUserSavedData (some u) s with
      | error e =>
        left
        simp only [createCollection_some_some, if_neg hne, hg]
      | ok d =>
        cases hw : Storage.setUserSavedData (some u)
            ⟨d.items, objSet d.collections i ⟨vstr i, vstr nm.trim, []⟩⟩ s with
        | error e =>
          left
          simp only [createCollection_some_some, if_neg hne, hg, hw]
        | ok s2 =>
          rcases setUserSavedData_ok_cases u _ s s2 hw with
            ⟨fs, rfl, rfl⟩ | ⟨xs, rfl, rfl⟩
          · right
            refine ⟨fs, d, nm, rfl, rfl, hne, rfl, ?_⟩
            simp only [createCollection_some_some, if_neg hne, hg, hw]
          · left
            simp only [createCollection_some_some, if_neg hne, hg, hw]

theorem deleteCollection_store (u : User) (cid : String) (s : SavedStore) :
    (Storage.deleteCollection (some u) cid s).2 = s ∨
    ∃ fs d, s = vobj fs ∧ Storage.getUserSavedData (some u) s = .ok d ∧
      (Storage.deleteCollection (some u) cid s).2 =
        vobj (objSet fs u.email (encodeEntry
          ⟨d.items, objDel d.collections cid⟩)) := by
  cases hg : Storage.getUserSavedData (some u) s with
  | error e =>
    left
    simp only [deleteCollection_some, hg]
  | ok d =>
    cases hw : Storage.setUserSavedData (some u)
        ⟨d.items, objDel d.collections cid⟩ s with
    | error e =>
      left
      simp only [deleteCollection_some, hg, hw]
    | ok s2 =>
      rcases setUserSavedData_ok_cases u _ s s2 hw with ⟨fs, rfl, rfl⟩ | ⟨xs, rfl, rfl⟩
      · right
        refine ⟨fs, d, rfl, rfl, ?_⟩
        simp only [deleteCollection_some, hg, hw]
      · left
        simp only [deleteCollection_some, hg, hw]

theorem addPlaceToCollection_store (u : User) (cid : String) (p : JsVal)
    (s : SavedStore) :
    (Storage.addPlaceToCollection (some u) cid p s).2 = s ∨
    ∃ fs d c, s = vobj fs ∧ Storage.getUserSavedData (some u) s = .ok d ∧
      objGet d.collections cid = some c ∧
      (Storage.addPlaceToCollection (some u) cid p s).2 =
        vobj (objSet fs u.email (encodeEntry
          ⟨(if jsIncludes d.items (vstr (jsToString p)) then d.items
            else d.items ++ [vstr (jsToString p)]),
            objSet d.collections cid
              ⟨c.id, c.name,
                setAdd (jsSetOfList c.placeIds) (vstr (jsToString p))⟩⟩)) := by
  cases hg : Storage.getUserSavedData (some u) s with
  | error e =>
    left
    simp only [addPlaceToCollection_some, hg]
  | ok d =>
    cases hget : objGet d.collections cid with
    | none =>
      left
      simp only [addPlaceToCollection_some, hg, hget]
    | some c =>
      cases hw : Storage.setUserSavedData (some u)
          ⟨(if jsIncludes d.items (vstr (jsToString p)) then d.items
            else d.items ++ [vstr (jsToString p)]),
            objSet d.collections cid
              ⟨c.id, c.name, setAdd (jsSetOfList c.placeIds) (vstr (jsToString p))⟩⟩
          s with
      | error e =>
        left
        simp only [addPlaceToCollection_some, hg, hget, hw]
      | ok s2 =>
        rcases setUserSavedData_ok_cases u _ s s2 hw with ⟨fs, rfl, rfl⟩ | ⟨xs, rfl, rfl⟩
        · right
          refine ⟨fs, d, c, rfl, rfl, hget, ?_⟩
          simp only [addPlaceToCollection_some, hg, hget, hw]
        · left
          simp only [addPlaceToCollection_some, hg, hget, hw]

theorem removePlaceFromCollection_store (u : User) (cid : String) (p : JsVal)
    (s : SavedStore) :
    (Storage.removePlaceFromCollection (some u) cid p s).2 = s ∨
    ∃ fs d c, s = vobj fs ∧ Storage.getUserSavedData (some u) s = .ok d ∧
      objGet d.collections cid = some c ∧
      (Storage.removePlaceFromCollection (some u) cid p s).2 =
        vobj (objSet fs u.email (encodeEntry
          ⟨d.items, objSet d.collections cid
            ⟨c.id, c.name,
              c.placeIds.filter
                (fun id => !(jsEqPrim id (vstr (jsToString p))))⟩⟩)) := by
  cases hg : Storage.getUserSavedData (some u) s with
  | error e =>
    left
    simp only [removePlaceFromCollection_some, hg]
  | ok d =>
    cases hget : objGet d.collections cid with
    | none =>
      left
      simp only [removePlaceFromCollection_some, hg, hget]
    | some c =>
      cases hw : Storage.setUserSavedData (some u)
          ⟨d.items, objSet d.collections cid
            ⟨c.id, c.name,
              c.placeIds.filter
                (fun id => !(jsEqPrim id (vstr (jsToString p))))⟩⟩ s with
      | error e =>
        left
        simp only [removePlaceFromCollection_some, hg, hget, hw]
      | ok s2 =>
        rcases setUserSavedData_ok_cases u _ s s2 hw with ⟨fs, rfl, rfl⟩ | ⟨xs, rfl, rfl⟩
        · right
          refine ⟨fs, d, c, rfl, rfl, hget, ?_⟩
          simp only [removePlaceFromCollection_some, hg, hget, hw]
        · left
          simp only [removePlaceFromCollection_some, hg, hget, hw]

theorem setUserSavedData_varr (u : User) (d : SavedEntry) (xs : List JsVal) :
    Storage.setUserSavedData (some u) d (varr xs) = .ok (varr xs) := rfl

/-! ### What a successful mutation returns and persists -/

theorem getSavedPlaceIds_eq_impl (u : Option User) (s : SavedStore) :
    Storage.getSavedPlaceIds u s = RemoteStorage.getSavedPlaceIds u s := by
  simp only [Storage.getSavedPlaceIds, RemoteStorage.getSavedPlaceIds,
    getUserSavedData_impls_eq]

theorem isPlaceSaved_eq_impl (u : Option User) (p : JsVal) (s : SavedStore) :
    Storage.isPlaceSaved u p s = RemoteStorage.isPlaceSaved u p s := by
  simp only [Storage.isPlaceSaved, RemoteStorage.isPlaceSaved,
    Storage.getSavedPlaceIds, RemoteStorage.getSavedPlaceIds,
    getUserSavedData_impls_eq]

theorem savePlace_eq_impl (u : Option User) (p : JsVal) (s : SavedStore) :
    Storage.savePlace u p s = RemoteStorage.savePlace u p s := by
  simp only [Storage.savePlace, RemoteStorage.savePlace, getUserSavedData_impls_eq]
  rfl

theorem removeSavedPlace_eq_impl (u : Option User) (p : JsVal) (s : SavedStore) :
    Storage.removeSavedPlace u p s = RemoteStorage.removeSavedPlace u p s := by
  simp only [Storage.removeSavedPlace, RemoteStorage.removeSavedPlace,
    getUserSavedData_impls_eq]
  rfl

theorem getCollections_eq_impl (u : Option User) (s : SavedStore) :
    Storage.getCollections u s = RemoteStorage.getCollections u s := by
  simp only [Storage.getCollections, RemoteStorage.getCollections,
    getUserSavedData_impls_eq]

theorem createCollection_eq_impl (u : Option User) (n : Option String) (i : String)
    (s : SavedStore) :
    Storage.createCollection u n i s = RemoteStorage.createCollection u n i s := by
  simp only [Storage.createCollection, RemoteStorage.createCollection,
    getUserSavedData_impls_eq]
  rfl

theorem deleteCollection_eq_impl (u : Option User) (cid : String) (s : SavedStore) :
    Storage.deleteCollection u cid s = RemoteStorage.deleteCollection u cid s := by
  simp only [Storage.deleteCollection, RemoteStorage.deleteCollection,
    getUserSavedData_impls_eq]
  rfl

theorem addPlaceToCollection_eq_impl (u : Option User) (cid : String) (p : JsVal)
    (s : SavedStore) :
    Storage.addPlaceToCollection u cid p s =
      RemoteStorage.addPlaceToCollection u cid p s := by
  simp only [Storage.addPlaceToCollection, RemoteStorage.addPlaceToCollection,
    getUserSavedData_impls_eq]
  rfl

theorem removePlaceFromCollection_eq_impl (u : Option User) (cid : String) (p : JsVal)
    (s : SavedStore) :
    Storage.removePlaceFromCollection u cid p s =
      RemoteStorage.removePlaceFromCollection u cid p s := by
  simp only [Storage.removePlaceFromCollection, RemoteStorage.removePlaceFromCollection,
    getUserSavedData_impls_eq]
  rfl

theorem getCollectionPlaceIds_eq_impl (u : Option User) (cid : String)
    (s : SavedStore) :
    Storage.getCollectionPlaceIds u cid s =
      RemoteStorage.getCollectionPlaceIds u cid s := by
  simp only [Storage.getCollectionPlaceIds, RemoteStorage.getCollectionPlaceIds,
    getUserSavedData_impls_eq]

theorem isPlaceInCollection_eq_impl (u : Option User) (cid : String) (p : JsVal)
    (s : SavedStore) :
    Storage.isPlaceInCollection u cid p s =
      RemoteStorage.isPlaceInCollection u cid p s := by
  simp only [Storage.isPlaceInCollection, RemoteStorage.isPlaceInCollection,
    Storage.getCollectionPlaceIds, RemoteStorage.getCollectionPlaceIds,
    getUserSavedData_impls_eq]

/-- **C1.**  The saved-places-and-collections data layer is duplicated across
the local-storage-only implementation (`src/utils/storage.js`, namespace
`Storage`) and the remote-auth-backed implementation (`src/unnamed/part_001`,
namespace `RemoteStorage`) with equal behaviour: for every user, every
persisted store state and all arguments, each of the eleven exported
saved-data operations returns the same value — or throws the same error —
and leaves the store in the same state in both implementations (mutating
results carry both the returned or thrown value and the resulting store). -/
theorem saved_layer_impls_equal :
    (∀ u s, Storage.getSavedPlaceIds u s = RemoteStorage.getSavedPlaceIds u s) ∧
    (∀ u p s, Storage.isPlaceSaved u p s = RemoteStorage.isPlaceSaved u p s) ∧
    (∀ u p s, Storage.savePlace u p s = RemoteStorage.savePlace u p s) ∧
    (∀ u p s, Storage.removeSavedPlace u p s = RemoteStorage.removeSavedPlace u p s) ∧
    (∀ u s, Storage.getCollections u s = RemoteStorage.getCollections u s) ∧
    (∀ u n i s, Storage.createCollection u n i s = RemoteStorage.createCollection u n i s) ∧
    (∀ u c s, Storage.deleteCollection u c s = RemoteStorage.deleteCollection u c s) ∧
    (∀ u c p s,
      Storage.addPlaceToCollection u c p s = RemoteStorage.addPlaceToCollection u c p s) ∧
    (∀ u c p s,
      Storage.removePlaceFromCollection u c p s =
        RemoteStorage.removePlaceFromCollection u c p s) ∧
    (∀ u c s,
      Storage.getCollectionPlaceIds u c s = RemoteStorage.getCollectionPlaceIds u c s) ∧
    (∀ u c p s,
      Storage.isPlaceInCollection u c p s = RemoteStorage.isPlaceInCollection u c p s) :=
  ⟨getSavedPlaceIds_eq_impl, isPlaceSaved_eq_impl, savePlace_eq_impl,
    removeSavedPlace_eq_impl, getCollections_eq_impl, createCollection_eq_impl,
    deleteCollection_eq_impl, addPlaceToCollection_eq_impl,
    removePlaceFromCollection_eq_impl, getCollectionPlaceIds_eq_impl,
    isPlaceInCollection_eq_impl⟩

/-- **C2, counterexample.**  The claim says the remote-auth-backed
implementation persists the per-user saved-items store via remote
auth/database calls.  It does not: running `savePlace` of the remote-auth-backed
module on a concrete state changes the parsed `localStorage` store and leaves
the remote service state untouched. -/
theorem saved_store_remote_persistence_cex :
    (RemoteStorage.savePlaceApp (some ⟨"Ada", "ada@example.com"⟩) (vstr "p1")
        (⟨vobj [], 0⟩ : RemoteStorage.AppState Nat)).2.remoteDb =
      (⟨vobj [], 0⟩ : RemoteStorage.AppState Nat).remoteDb ∧
    (RemoteStorage.savePlaceApp (some ⟨"Ada", "ada@example.com"⟩) (vstr "p1")
        (⟨vobj [], 0⟩ : RemoteStorage.AppState Nat)).2.savedLocal ≠
      (⟨vobj [], 0⟩ : RemoteStorage.AppState Nat).savedLocal :=
  ⟨rfl, by decide⟩

/-- **C2, amended.**  In the remote-auth-backed implementation the per-user
saved-items store (array of place ids plus named collections) is persisted in
browser local storage — not via remote database calls — with shape and
behaviour identical to the browser local-storage implementation; the remote
service state is never touched by the saved-data operations. -/
theorem saved_store_persisted_locally_in_remote_impl :
    ∀ (δ : Type) (u : Option User) (p : JsVal) (n : Option String) (i cid : String)
      (st : RemoteStorage.AppState δ),
    ((RemoteStorage.savePlaceApp u p st).2.remoteDb = st.remoteDb ∧
      (RemoteStorage.savePlaceApp u p st).2.savedLocal =
        (Storage.savePlace u p st.savedLocal).2 ∧
      (RemoteStorage.savePlaceApp u p st).1 = (Storage.savePlace u p st.savedLocal).1) ∧
    ((RemoteStorage.removeSavedPlaceApp u p st).2.remoteDb = st.remoteDb ∧
      (RemoteStorage.removeSavedPlaceApp u p st).2.savedLocal =
        (Storage.removeSavedPlace u p st.savedLocal).2 ∧
      (RemoteStorage.removeSavedPlaceApp u p st).1 =
        (Storage.removeSavedPlace u p st.savedLocal).1) ∧
    ((RemoteStorage.createCollectionApp u n i st).2.remoteDb = st.remoteDb ∧
      (RemoteStorage.createCollectionApp u n i st).2.savedLocal =
        (Storage.createCollection u n i st.savedLocal).2 ∧
      (RemoteStorage.createCollectionApp u n i st).1 =
        (Storage.createCollection u n i st.savedLocal).1) ∧
    ((RemoteStorage.deleteCollectionApp u cid st).2.remoteDb = st.remoteDb ∧
      (RemoteStorage.deleteCollectionApp u cid st).2.savedLocal =
        (Storage.deleteCollection u cid st.savedLocal).2 ∧
      (RemoteStorage.deleteCollectionApp u cid st).1 =
        (Storage.deleteCollection u cid st.savedLocal).1) ∧
    ((RemoteStorage.addPlaceToCollectionApp u cid p st).2.remoteDb = st.remoteDb ∧
      (RemoteStorage.addPlaceToCollectionApp u cid p st).2.savedLocal =
        (Storage.addPlaceToCollection u cid p st.savedLocal).2 ∧
      (RemoteStorage.addPlaceToCollectionApp u cid p st).1 =
        (Storage.addPlaceToCollection u cid p st.savedLocal).1) ∧
    ((RemoteStorage.removePlaceFromCollectionApp u cid p st).2.remoteDb = st.remoteDb ∧
      (RemoteStorage.removePlaceFromCollectionApp u cid p st).2.savedLocal =
        (Storage.removePlaceFromCollection u cid p st.savedLocal).2 ∧
      (RemoteStorage.removePlaceFromCollectionApp u cid p st).1 =
        (Storage.removePlaceFromCollection u cid p st.savedLocal).1) ∧
    RemoteStorage.getSavedPlaceIdsApp u st = Storage.getSavedPlaceIds u st.savedLocal ∧
    RemoteStorage.getCollectionsApp u st = Storage.getCollections u st.savedLocal := by
  intro δ u p n i cid st
  refine ⟨⟨rfl, ?_, ?_⟩, ⟨rfl, ?_, ?_⟩, ⟨rfl, ?_, ?_⟩, ⟨rfl, ?_, ?_⟩, ⟨rfl, ?_, ?_⟩,
    ⟨rfl, ?_, ?_⟩, ?_, ?_⟩
  · show (RemoteStorage.savePlace u p st.savedLocal).2 = _
    rw [savePlace_eq_impl]
  · show (RemoteStorage.savePlace u p st.savedLocal).1 = _
    rw [savePlace_eq_impl]
  · show (RemoteStorage.removeSavedPlace u p st.savedLocal).2 = _
    rw [removeSavedPlace_eq_impl]
  · show (RemoteStorage.removeSavedPlace u p st.savedLocal).1 = _
    rw [removeSavedPlace_eq_impl]
  · show (RemoteStorage.createCollection u n i st.savedLocal).2 = _
    rw [createCollection_eq_impl]
  · show (RemoteStorage.createCollection u n i st.savedLocal).1 = _
    rw [createCollection_eq_impl]
  · show (RemoteStorage.deleteCollection u cid st.savedLocal).2 = _
    rw [deleteCollection_eq_impl]
  · show (RemoteStorage.deleteCollection u cid st.savedLocal).1 = _
    rw [deleteCollection_eq_impl]
  · show (RemoteStorage.addPlaceToCollection u cid p st.savedLocal).2 = _
    rw [addPlaceToCollection_eq_impl]
  · show (RemoteStorage.addPlaceToCollection u cid p st.savedLocal).1 = _
    rw [addPlaceToCollection_eq_impl]
  · show (RemoteStorage.removePlaceFromCollection u cid p st.savedLocal).2 = _
    rw [removePlaceFromCollection_eq_impl]
  · show (RemoteStorage.removePlaceFromCollection u cid p st.savedLocal).1 = _
    rw [removePlaceFromCollection_eq_impl]
  · show RemoteStorage.getSavedPlaceIds u st.savedLocal = _
    rw [getSavedPlaceIds_eq_impl]
  · show RemoteStorage.getCollections u st.savedLocal = _
    rw [getCollections_eq_impl]

/-- **C9.**  Without a logged-in user the saved layer fails closed and never
mutates: with a falsy user every mutating operation returns the thrown
`"Login required"` error together with the untouched store, while the read
operations return empty or false results without throwing. -/
theorem falsy_user_fails_closed :
    ∀ (s : SavedStore) (p : JsVal) (c : String) (n : Option String) (i : String),
    Storage.savePlace none p s = (.error "Login required", s) ∧
    Storage.removeSavedPlace none p s = (.error "Login required", s) ∧
    Storage.createCollection none n i s = (.error "Login required", s) ∧
    Storage.deleteCollection none c s = (.error "Login required", s) ∧
    Storage.addPlaceToCollection none c p s = (.error "Login required", s) ∧
    Storage.removePlaceFromCollection none c p s = (.error "Login required", s) ∧
    Storage.getSavedPlaceIds none s = .ok [] ∧
    Storage.isPlaceSaved none p s = .ok false ∧
    Storage.getCollections none s = .ok [] ∧
    Storage.getCollectionPlaceIds none c s = .ok [] ∧
    Storage.isPlaceInCollection none c p s = .ok false :=
  fun _ _ _ _ _ =>
    ⟨rfl, rfl, rfl, rfl, rfl, rfl, rfl, rfl, rfl, rfl, rfl⟩

/-- **C6.**  The saved store is keyed by user email and the mutating
operations touch only the caller's entry: for user `u` and any store key `k`
other than `u.email`, the store entry at `k` is unchanged by every mutating
saved-data operation — including the error branches, the branches where a
thrown TypeError leaves the store untouched, and the array-store branch where
`JSON.stringify` drops the write. -/
theorem saved_store_frame :
    ∀ (u : User) (k : String), k ≠ u.email →
    ∀ (s : SavedStore) (p : JsVal) (n : Option String) (i cid : String),
    storeAt (Storage.savePlace (some u) p s).2 k = storeAt s k ∧
    storeAt (Storage.removeSavedPlace (some u) p s).2 k = storeAt s k ∧
    storeAt (Storage.createCollection (some u) n i s).2 k = storeAt s k ∧
    storeAt (Storage.deleteCollection (some u) cid s).2 k = storeAt s k ∧
    storeAt (Storage.addPlaceToCollection (some u) cid p s).2 k = storeAt s k ∧
    storeAt (Storage.removePlaceFromCollection (some u) cid p s).2 k = storeAt s k := by
  intro u k hk s p n i cid
  refine ⟨?_, ?_, ?_, ?_, ?_, ?_⟩
  · rcases savePlace_store u p s with h2 | ⟨fs, d, rfl, hg, h2⟩
    · rw [h2]
    · rw [h2]
      show objGet (objSet fs u.email _) k = objGet fs k
      exact objGet_objSet_ne fs u.email k _ hk
  · rcases removeSavedPlace_store u p s with h2 | ⟨fs, d, rfl, hg, h2⟩
    · rw [h2]
    · rw [h2]
      show objGet (objSet fs u.email _) k = objGet fs k
      exact objGet_objSet_ne fs u.email k _ hk
  · rcases createCollection_store u n i s with h2 | ⟨fs, d, nm, rfl, rfl, hne, hg, h2⟩
    · rw [h2]
    · rw [h2]
      show objGet (objSet fs u.email _) k = objGet fs k
      exact objGet_objSet_ne fs u.email k _ hk
  · rcases deleteCollection_store u cid s with h2 | ⟨fs, d, rfl, hg, h2⟩
    · rw [h2]
    · rw [h2]
      show objGet (objSet fs u.email _) k = objGet fs k
      exact objGet_objSet_ne fs u.email k _ hk
  · rcases addPlaceToCollection_store u cid p s with h2 | ⟨fs, d, col, rfl, hg, hget, h2⟩
    · rw [h2]
    · rw [h2]
      show objGet (objSet fs u.email _) k = objGet fs k
      exact objGet_objSet_ne fs u.email k _ hk
  · rcases removePlaceFromCollection_store u cid p s with
      h2 | ⟨fs, d, col, rfl, hg, hget, h2⟩
    · rw [h2]
    · rw [h2]
      show objGet (objSet fs u.email _) k = objGet fs k
      exact objGet_objSet_ne fs u.email k _ hk

/-- Witness for C6 at a concrete user, other key, store and arguments. -/
theorem saved_store_frame_witness :
    storeAt (Storage.savePlace (some ⟨"Ada", "ada@example.com"⟩) (vstr "p1")
        (vobj [])).2 "bob@example.com" =
      storeAt (vobj []) "bob@example.com" :=
  (saved_store_frame ⟨"Ada", "ada@example.com"⟩ "bob@example.com" (by decide) (vobj [])
    (vstr "p1") none "col-1" "c1").1

/-- **C3.**  Every collection's place-id list is a subset of the user's flat
saved-items list, and this is preserved by every mutating operation: whenever
the user's (fallible) normalized read satisfies the subset property, the read
repeated after `savePlace`, `removeSavedPlace`, `createCollection`,
`deleteCollection`, `addPlaceToCollection` or `removePlaceFromCollection`
still satisfies it — on the error branches and the dropped-write array branch
the store is unchanged, and on the written branch the re-read data keeps every
collection's `placeIds` inside `items`. -/
theorem saved_subset_invariant_preserved :
    ∀ (u : User) (s : SavedStore),
    subsetInvE (Storage.getUserSavedData (some u) s) →
    (∀ p, subsetInvE (Storage.getUserSavedData (some u)
        (Storage.savePlace (some u) p s).2)) ∧
    (∀ p, subsetInvE (Storage.getUserSavedData (some u)
        (Storage.removeSavedPlace (some u) p s).2)) ∧
    (∀ n i, subsetInvE (Storage.getUserSavedData (some u)
        (Storage.createCollection (some u) n i s).2)) ∧
    (∀ c, subsetInvE (Storage.getUserSavedData (some u)
        (Storage.deleteCollection (some u) c s).2)) ∧
    (∀ c p, subsetInvE (Storage.getUserSavedData (some u)
        (Storage.addPlaceToCollection (some u) c p s).2)) ∧
    (∀ c p, subsetInvE (Storage.getUserSavedData (some u)
        (Storage.removePlaceFromCollection (some u) c p s).2)) := by
  intro u s h
  refine ⟨?_, ?_, ?_, ?_, ?_, ?_⟩
  · intro p
    rcases savePlace_store u p s with h2 | ⟨fs, d, rfl, hg, h2⟩
    · rw [h2]; exact h
    · have hwf : entryWF
          ⟨setAdd (jsSetOfList d.items) (vstr (jsToString p)), d.collections⟩ :=
        entryWF_set_items d _ (getUserSavedData_ok_wf _ _ _ hg)
      rw [h2, getUserSavedData_write_read u fs _ hwf]
      rw [hg] at h
      have hsub : subsetInv d := h
      show subsetInv ⟨setAdd (jsSetOfList d.items) (vstr (jsToString p)), d.collections⟩
      intro q hq x hx
      exact mem_setAdd_of_mem _ _ x (mem_jsSetOfList_of_mem _ x (hsub q hq x hx))
  · intro p
    rcases removeSavedPlace_store u p s with h2 | ⟨fs, d, rfl, hg, h2⟩
    · rw [h2]; exact h
    · have hwf : entryWF
          ⟨d.items.filter (fun id => !(jsEqPrim id (vstr (jsToString p)))),
            d.collections.map (fun q =>
              (q.1, { q.2 with
                      placeIds := q.2.placeIds.filter
                        (fun id => !(jsEqPrim id (vstr (jsToString p)))) }))⟩ :=
        entryWF_map_placeIds d _
          (fun c => c.placeIds.filter (fun id => !(jsEqPrim id (vstr (jsToString p)))))
          (getUserSavedData_ok_wf _ _ _ hg)
      rw [h2, getUserSavedData_write_read u fs _ hwf]
      rw [hg] at h
      have hsub : subsetInv d := h
      show subsetInv ⟨d.items.filter (fun id => !(jsEqPrim id (vstr (jsToString p)))),
        d.collections.map (fun q =>
          (q.1, { q.2 with
                  placeIds := q.2.placeIds.filter
                    (fun id => !(jsEqPrim id (vstr (jsToString p)))) }))⟩
      intro q hq x hx
      rcases List.mem_map.mp hq with ⟨q0, hq0, rfl⟩
      rcases List.mem_filter.mp hx with ⟨hx1, hx2⟩
      exact List.mem_filter.mpr ⟨hsub q0 hq0 x hx1, hx2⟩
  · intro n i
    rcases createCollection_store u n i s with h2 | ⟨fs, d, nm, rfl, rfl, hne, hg, h2⟩
    · rw [h2]; exact h
    · have hwf : entryWF ⟨d.items, objSet d.collections i ⟨vstr i, vstr nm.trim, []⟩⟩ :=
        entryWF_objSet_new d _ i nm.trim (getUserSavedData_ok_wf _ _ _ hg) hne
      rw [h2, getUserSavedData_write_read u fs _ hwf]
      rw [hg] at h
      have hsub : subsetInv d := h
      show subsetInv ⟨d.items, objSet d.collections i ⟨vstr i, vstr nm.trim, []⟩⟩
      intro q hq x hx
      rcases mem_objSet d.collections i _ q hq with hq' | hq'
      · exact hsub q hq' x hx
      · subst hq'
        exact absurd hx (List.not_mem_nil x)
  · intro c
    rcases deleteCollection_store u c s with h2 | ⟨fs, d, rfl, hg, h2⟩
    · rw [h2]; exact h
    · have hwf : entryWF ⟨d.items, objDel d.collections c⟩ :=
        entryWF_objDel d _ c (getUserSavedData_ok_wf _ _ _ hg)
      rw [h2, getUserSavedData_write_read u fs _ hwf]
      rw [hg] at h
      have hsub : subsetInv d := h
      show subsetInv ⟨d.items, objDel d.collections c⟩
      intro q hq x hx
      exact hsub q (mem_objDel d.collections c q hq) x hx
  · intro c p
    rcases addPlaceToCollection_store u c p s with h2 | ⟨fs, d, col, rfl, hg, hget, h2⟩
    · rw [h2]; exact h
    · have hwf : entryWF ⟨(if jsIncludes d.items (vstr (jsToString p)) then d.items
          else d.items ++ [vstr (jsToString p)]),
          objSet d.collections c ⟨col.id, col.name,
            setAdd (jsSetOfList col.placeIds) (vstr (jsToString p))⟩⟩ :=
        entryWF_objSet_existing d _ c col _ (getUserSavedData_ok_wf _ _ _ hg) hget rfl rfl
      rw [h2, getUserSavedData_write_read u fs _ hwf]
      rw [hg] at h
      have hsub : subsetInv d := h
      have hkeep : ∀ x ∈ d.items,
          x ∈ (if jsIncludes d.items (vstr (jsToString p)) then d.items
            else d.items ++ [vstr (jsToString p)]) := by
        intro x hx
        by_cases hin : jsIncludes d.items (vstr (jsToString p)) = true
        · rwa [if_pos hin]
        · rw [if_neg hin]
          exact List.mem_append_left _ hx
      show subsetInv ⟨(if jsIncludes d.items (vstr (jsToString p)) then d.items
        else d.items ++ [vstr (jsToString p)]),
        objSet d.collections c ⟨col.id, col.name,
          setAdd (jsSetOfList col.placeIds) (vstr (jsToString p))⟩⟩
      intro q hq x hx
      rcases mem_objSet d.collections c _ q hq with hq' | hq'
      · exact hkeep x (hsub q hq' x hx)
      · subst hq'
        rcases mem_setAdd _ _ x hx with hx' | hx'
        · exact hkeep x (hsub (c, col) (mem_of_objGet _ c col hget) x
            (mem_of_mem_jsSetOfList _ x hx'))
        · subst hx'
          by_cases hin : jsIncludes d.items (vstr (jsToString p)) = true
          · rw [if_pos hin]
            exact (jsIncludes_vstr_iff _ _).mp hin
          · rw [if_neg hin]
            exact List.mem_append_right _ (by simp)
  · intro c p
    rcases removePlaceFromCollection_store u c p s with
      h2 | ⟨fs, d, col, rfl, hg, hget, h2⟩
    · rw [h2]; exact h
    · have hwf : entryWF ⟨d.items, objSet d.collections c ⟨col.id, col.name,
          col.placeIds.filter (fun id => !(jsEqPrim id (vstr (jsToString p))))⟩⟩ :=
        entryWF_objSet_existing d _ c col _ (getUserSavedData_ok_wf _ _ _ hg) hget rfl rfl
      rw [h2, getUserSavedData_write_read u fs _ hwf]
      rw [hg] at h
      have hsub : subsetInv d := h
      show subsetInv ⟨d.items, objSet d.collections c ⟨col.id, col.name,
        col.placeIds.filter (fun id => !(jsEqPrim id (vstr (jsToString p))))⟩⟩
      intro q hq x hx
      rcases mem_objSet d.collections c _ q hq with hq' | hq'
      · exact hsub q hq' x hx
      · subst hq'
        exact hsub (c, col) (mem_of_objGet _ c col hget) x (List.mem_of_mem_filter hx)

/-- Witness for C3 at a concrete user, store and place id. -/
theorem saved_subset_invariant_preserved_witness :
    subsetInvE (Storage.getUserSavedData (some ⟨"Ada", "ada@example.com"⟩) (vobj [])) ∧
    subsetInvE (Storage.getUserSavedData (some ⟨"Ada", "ada@example.com"⟩)
      (Storage.savePlace (some ⟨"Ada", "ada@example.com"⟩) (vstr "p1") (vobj [])).2) :=
  ⟨by decide,
    (saved_subset_invariant_preserved ⟨"Ada", "ada@example.com"⟩ (vobj [])
      (by decide)).1 (vstr "p1")⟩

/-- **C7, counterexample.**  The claim says entry normalization is total and
that every normalized collection record has a truthy `id` and a non-empty
name.  Neither holds.  A stored `null` collection value makes `normalizeEntry`
throw a TypeError (`col.id` reads a property of `null`), so normalization is
not total.  And storing a collection under the empty key with a falsy `id`
and a numeric `name` yields a normalized record whose `id` is the (falsy)
empty string and whose `name` is the number `3`, not a string. -/
theorem normalizeEntry_truthy_id_cex :
    Storage.normalizeEntry (vobj [("collections", vobj [("k", vnull)])]) =
      .error "TypeError" ∧
    Storage.normalizeEntry
        (vobj [("collections", vobj [("", vobj [("name", vnum 3)])])]) =
      .ok ⟨[], [("", ⟨vstr "", vnum 3, []⟩)]⟩ ∧
    jsTruthy (⟨vstr "", vnum 3, []⟩ : SavedCollection).id = false ∧
    (∀ str : String, (⟨vstr "", vnum 3, []⟩ : SavedCollection).name ≠ vstr str) :=
  ⟨by decide, by decide, by decide, fun _ h => by cases h⟩

/-- **C7, amended.**  Entry normalization is idempotent and shape-normalizing
on the inputs it accepts, but not total: it throws a TypeError when a stored
collection value is `null` or `undefined`.  A falsy entry becomes the empty
record, a legacy bare-array entry `e` becomes `{ items: e, collections: {} }`,
and whenever `normalizeEntry` returns a record, that record's `items` is an
array (a `List` in this model), its `collections` maps each key to a record
with an array `placeIds`, a truthy `name` (defaulting to `"Collection"`), and
an `id` whose string form is the key and which is truthy except when the key
is empty and the stored id falsy (then it is the empty string); the keys are
unique; and applying `normalizeEntry` to (the stored form of) the returned
record returns it unchanged. -/
theorem normalizeEntry_normalizes :
    (∀ xs : List JsVal, Storage.normalizeEntry (varr xs) = .ok ⟨xs, []⟩) ∧
    (∀ v : JsVal, jsTruthy v = false → Storage.normalizeEntry v = .ok ⟨[], []⟩) ∧
    (∀ (v : JsVal) (d : SavedEntry), Storage.normalizeEntry v = .ok d →
      (∀ p ∈ d.collections,
        p.1 = jsToString p.2.id ∧
        jsTruthy p.2.name = true ∧
        (jsTruthy p.2.id = true ∨ (p.1 = "" ∧ p.2.id = vstr ""))) ∧
      (d.collections.map Prod.fst).Nodup ∧
      Storage.normalizeEntry (encodeEntry d) = .ok d) := by
  refine ⟨fun xs => rfl, ?_, ?_⟩
  · intro v hv
    unfold Storage.normalizeEntry
    rw [if_neg (fun hc => Bool.false_ne_true (hv ▸ hc))]
  · intro v d h
    have hwf := normalizeEntry_ok_wf v d h
    refine ⟨?_, hwf.2, normalizeEntry_encode d hwf⟩
    intro p hp
    obtain ⟨h1, h2, h3⟩ := hwf.1 p hp
    refine ⟨h1, h2, ?_⟩
    by_cases hti : jsTruthy p.2.id = true
    · exact .inl hti
    · rcases h3 with h3 | h3
      · exact absurd h3 hti
      · have hfalse : jsTruthy p.2.id = false := Bool.eq_false_iff.mpr hti
        rw [h3] at hfalse
        have hempty : p.1 = "" := by simpa [jsTruthy] using hfalse
        exact .inr ⟨hempty, by rw [h3, hempty]⟩

/-- Witness for C7 at a concrete stored entry and collection. -/
theorem normalizeEntry_normalizes_witness :
    ("c1" : String) = jsToString (⟨vstr "c1", vstr "Mine", []⟩ : SavedCollection).id ∧
    jsTruthy (⟨vstr "c1", vstr "Mine", []⟩ : SavedCollection).name = true ∧
    (jsTruthy (⟨vstr "c1", vstr "Mine", []⟩ : SavedCollection).id = true ∨
      (("c1" : String) = "" ∧
        (⟨vstr "c1", vstr "Mine", []⟩ : SavedCollection).id = vstr "")) :=
  (normalizeEntry_normalizes.2.2
      (vobj [("collections",
        vobj [("c1", vobj [("id", vstr "c1"), ("name", vstr "Mine"),
          ("placeIds", varr [])])])])
      ⟨[], [("c1", ⟨vstr "c1", vstr "Mine", []⟩)]⟩ (by decide)).1
    ("c1", ⟨vstr "c1", vstr "Mine", []⟩) (by decide)

